import Mathlib

/-!
Verification of the hero.page mirror server (content rewriter, fetch
orchestrator, cache and HTTP router) against its natural-language
specification.

The content rewriter (content_utils.py, fix_content) is a chain of Python
regex substitutions and string replacements.  We embed it shallowly: markup
is a list of characters, and each regex of the source is transcribed into a
small pattern language (below) that covers exactly the constructs those
regexes use - literal characters (case sensitive or not, per re.IGNORECASE),
the optional marker s?, the character classes [^>], [^"], [^<], ["'], \d and
the dot under re.DOTALL, greedy and lazy repetition, and a trailing
lookahead.  The matcher implements the standard leftmost backtracking
semantics of the Python engine on this fragment (greedy tries the longest
repetition first, lazy the shortest), and the substitution / search / count
drivers mimic re.sub, re.search and str.replace: scan left to right, replace
non-overlapping matches, resume scanning after the replaced region of the
original string.  Case folding is modelled at the ASCII level, which agrees
with re.IGNORECASE on all inputs considered here.
-/

/-- ASCII case folding on code points: uppercase letters map to lowercase,
everything else is fixed.  This models re.IGNORECASE / str.lower for the
ASCII patterns of content_utils.py. -/
def lowerN (n : Nat) : Nat :=
  if 65 ≤ n ∧ n ≤ 90 then n + 32 else n

/-- The character classes occurring in the regexes of content_utils.py. -/
inductive CClass where
  | digit
  | notGt
  | notQuote
  | notLt
  | quoteApos
  | anyc
deriving DecidableEq

/-- Membership test of a character class. -/
def CClass.test : CClass → Char → Bool
  | .digit, c => c.isDigit
  | .notGt, c => c ≠ '>'
  | .notQuote, c => c ≠ '"'
  | .notLt, c => c ≠ '<'
  | .quoteApos, c => c = '"' ∨ c = Char.ofNat 39
  | .anyc, _ => true

/-- Atoms of the pattern language: each regex of the source is a list of
these.  lit is a literal character, litCI a case-insensitive literal (the
stored character is lowercase), opt is c?, optCI its case-insensitive
variant, cls a single character of a class, star / lazyStar greedy and lazy
repetition of a class, plusG greedy repetition at least once, and ahead a
single-character lookahead. -/
inductive RAtom where
  | lit (c : Char)
  | litCI (c : Char)
  | opt (c : Char)
  | optCI (c : Char)
  | cls (cc : CClass)
  | star (cc : CClass)
  | lazyStar (cc : CClass)
  | plusG (cc : CClass)
  | ahead (cc : CClass)
deriving DecidableEq

/-- Length of the maximal prefix of s made of characters of the class. -/
def takeCount (cc : CClass) : List Char → Nat
  | [] => 0
  | c :: r => if cc.test c then takeCount cc r + 1 else 0

/-- The list n, n-1, ..., 0: the order in which a greedy star tries
repetition counts. -/
def countdown : Nat → List Nat
  | 0 => [0]
  | n + 1 => (n + 1) :: countdown n

/-- The list 0, 1, ..., n: the order in which a lazy star tries repetition
counts. -/
def countup : Nat → List Nat
  | 0 => [0]
  | n + 1 => countup n ++ [n + 1]

/-- The list n, n-1, ..., 1: the order for a greedy plus. -/
def countdownPos : Nat → List Nat
  | 0 => []
  | n + 1 => (n + 1) :: countdownPos n

/-- Backtracking matcher: try to match the atom list at the start of s and
return the number of characters consumed by the leftmost-greedy (Python)
strategy. -/
def matchAtoms : List RAtom → List Char → Option Nat
  | [], _ => some 0
  | RAtom.lit _ :: _, [] => none
  | RAtom.lit c :: rest, x :: s =>
      if x = c then (matchAtoms rest s).map (· + 1) else none
  | RAtom.litCI _ :: _, [] => none
  | RAtom.litCI c :: rest, x :: s =>
      if lowerN x.toNat = c.toNat then (matchAtoms rest s).map (· + 1) else none
  | RAtom.opt _ :: rest, [] => matchAtoms rest []
  | RAtom.opt c :: rest, x :: s =>
      if x = c then
        match matchAtoms rest s with
        | some n => some (n + 1)
        | none => matchAtoms rest (x :: s)
      else matchAtoms rest (x :: s)
  | RAtom.optCI _ :: rest, [] => matchAtoms rest []
  | RAtom.optCI c :: rest, x :: s =>
      if lowerN x.toNat = c.toNat then
        match matchAtoms rest s with
        | some n => some (n + 1)
        | none => matchAtoms rest (x :: s)
      else matchAtoms rest (x :: s)
  | RAtom.cls _ :: _, [] => none
  | RAtom.cls cc :: rest, x :: s =>
      if cc.test x then (matchAtoms rest s).map (· + 1) else none
  | RAtom.star cc :: rest, s =>
      (countdown (takeCount cc s)).findSome? fun k =>
        (matchAtoms rest (s.drop k)).map (· + k)
  | RAtom.lazyStar cc :: rest, s =>
      (countup (takeCount cc s)).findSome? fun k =>
        (matchAtoms rest (s.drop k)).map (· + k)
  | RAtom.plusG cc :: rest, s =>
      (countdownPos (takeCount cc s)).findSome? fun k =>
        (matchAtoms rest (s.drop k)).map (· + k)
  | RAtom.ahead _ :: _, [] => none
  | RAtom.ahead cc :: rest, x :: s =>
      if cc.test x then matchAtoms rest (x :: s) else none

/-- Transcribe a literal string into case-sensitive literal atoms. -/
def lits (s : String) : List RAtom := s.data.map RAtom.lit

/-- Transcribe a literal string into case-insensitive literal atoms (the
string is written lowercase). -/
def litsCI (s : String) : List RAtom := s.data.map RAtom.litCI

/-- Does t occur at the start of s? -/
def startsL : List Char → List Char → Bool
  | [], _ => true
  | _ :: _, [] => false
  | a :: t, b :: s => a = b && startsL t s

/-- Does t occur somewhere in s?  This is the Python operator in. -/
def containsSubstr (t : List Char) : List Char → Bool
  | [] => t.isEmpty
  | s@(_ :: rest) => startsL t s || containsSubstr t rest

/-- Fuel-indexed worker for re.sub: scan left to right, replace each
non-overlapping match by repl, resume after the matched region.  The fuel
is the length of the remaining input; every step consumes at least one
character, so the fuel never runs out on the patterns used here (none of
them matches the empty string). -/
def subAllF (pat : List RAtom) (repl : List Char) : Nat → List Char → List Char
  | 0, s => s
  | _ + 1, [] => []
  | fuel + 1, s@(c :: rest) =>
      match matchAtoms pat s with
      | some n =>
          if 0 < n then repl ++ subAllF pat repl fuel (s.drop n)
          else c :: subAllF pat repl fuel rest
      | none => c :: subAllF pat repl fuel rest

/-- re.sub with a constant replacement. -/
def subAll (pat : List RAtom) (repl : List Char) (s : List Char) : List Char :=
  subAllF pat repl s.length s

/-- re.sub with count=1 and a replacement computed from the matched text:
replace only the leftmost match. -/
def subFirst (pat : List RAtom) (f : List Char → List Char) : List Char → List Char
  | [] => []
  | s@(c :: rest) =>
      match matchAtoms pat s with
      | some n => f (s.take n) ++ s.drop n
      | none => c :: subFirst pat f rest

/-- re.search as a Boolean: does the pattern match anywhere in s? -/
def searchExists (pat : List RAtom) : List Char → Bool
  | [] => (matchAtoms pat []).isSome
  | s@(_ :: rest) => (matchAtoms pat s).isSome || searchExists pat rest

/-- Fuel-indexed worker counting the non-overlapping matches that re.sub
would replace. -/
def countMatchesF (pat : List RAtom) : Nat → List Char → Nat
  | 0, _ => 0
  | _ + 1, [] => 0
  | fuel + 1, s@(_ :: rest) =>
      match matchAtoms pat s with
      | some n =>
          if 0 < n then 1 + countMatchesF pat fuel (s.drop n)
          else countMatchesF pat fuel rest
      | none => countMatchesF pat fuel rest

/-- Number of non-overlapping leftmost matches of the pattern in s. -/
def countMatches (pat : List RAtom) (s : List Char) : Nat :=
  countMatchesF pat s.length s

/-- Fuel-indexed worker for str.replace: replace every non-overlapping
occurrence of t by r, left to right. -/
def replAllF (t r : List Char) : Nat → List Char → List Char
  | 0, s => s
  | _ + 1, [] => []
  | fuel + 1, s@(c :: rest) =>
      if startsL t s ∧ t ≠ [] then r ++ replAllF t r fuel (s.drop t.length)
      else c :: replAllF t r fuel rest

/-- Python str.replace(t, r). -/
def replAll (t r : List Char) (s : List Char) : List Char :=
  replAllF t r s.length s

/-!
The regexes of content_utils.py, transcribed atom by atom.  Names follow
the comment blocks of the source.
-/

/-- Pattern of line 11: the id_ variant of the Wayback wrapper prefix. -/
def pArchiveId : List RAtom :=
  lits ("https://web.archive.org/web/") ++ [RAtom.plusG CClass.digit] ++
    lits ("id_/https://hero.page")

/-- Pattern of line 16: the plain Wayback wrapper prefix. -/
def pArchive : List RAtom :=
  lits ("https://web.archive.org/web/") ++ [RAtom.plusG CClass.digit] ++
    lits ("/https://hero.page")

/-- Pattern of line 22. -/
def pQuibeySlash : List RAtom :=
  lits ("http") ++ [RAtom.opt 's'] ++ lits ("://quibey.com/")

/-- Pattern of line 23: host followed by a quote (lookahead). -/
def pQuibeyQuote : List RAtom :=
  lits ("http") ++ [RAtom.opt 's'] ++ lits ("://quibey.com") ++
    [RAtom.ahead CClass.quoteApos]

/-- Pattern of line 24. -/
def pHeroSlash : List RAtom :=
  lits ("http") ++ [RAtom.opt 's'] ++ lits ("://hero.page/")

/-- Pattern of line 25. -/
def pHeroQuote : List RAtom :=
  lits ("http") ++ [RAtom.opt 's'] ++ lits ("://hero.page") ++
    [RAtom.ahead CClass.quoteApos]

/-- Pattern of line 26. -/
def pSSHeroSlash : List RAtom := lits ("//hero.page/")

/-- Pattern of line 27. -/
def pSSHeroQuote : List RAtom :=
  lits ("//hero.page") ++ [RAtom.ahead CClass.quoteApos]

/-- Pattern of line 28. -/
def pSSQuibeySlash : List RAtom := lits ("//quibey.com/")

/-- Pattern of line 29. -/
def pSSQuibeyQuote : List RAtom :=
  lits ("//quibey.com") ++ [RAtom.ahead CClass.quoteApos]

/-- Pattern of line 33 (re.IGNORECASE). -/
def pCdn2 : List RAtom :=
  litsCI ("http") ++ [RAtom.optCI 's'] ++ litsCI ("://cdn-2.hero.com")

/-- Pattern of line 39 (re.IGNORECASE). -/
def pCdnHero : List RAtom :=
  litsCI ("http") ++ [RAtom.optCI 's'] ++ litsCI ("://cdn.hero.page")

/-- Pattern of line 45 (re.IGNORECASE). -/
def pSSCdn2 : List RAtom := litsCI ("//cdn-2.hero.com")

/-- Pattern of line 51 (re.IGNORECASE). -/
def pSSCdnHero : List RAtom := litsCI ("//cdn.hero.page")

/-- Pattern of line 59 (re.IGNORECASE): an existing canonical link tag. -/
def pCanon : List RAtom :=
  litsCI ("<link") ++ [RAtom.star CClass.notGt] ++ litsCI ("rel=") ++
    [RAtom.cls CClass.quoteApos] ++ litsCI ("canonical") ++
    [RAtom.cls CClass.quoteApos] ++ [RAtom.lazyStar CClass.notGt] ++
    [RAtom.opt '/'] ++ lits (">")

/-- Pattern of lines 65-67: an opening head tag. -/
def pHead : List RAtom :=
  lits ("<head") ++ [RAtom.star CClass.notGt] ++ lits (">")

/-- Pattern of line 75: a script tag whose src contains main.<...>.js. -/
def pMain : List RAtom :=
  lits ("<script") ++ [RAtom.star CClass.notGt] ++ lits ("src=\"") ++
    [RAtom.star CClass.notQuote] ++ lits ("main.") ++
    [RAtom.star CClass.notQuote] ++ lits (".js\"") ++
    [RAtom.star CClass.notGt] ++ lits ("></script>")

/-- Pattern of line 80: a script tag whose src contains chunk.<...>.js. -/
def pChunk : List RAtom :=
  lits ("<script") ++ [RAtom.star CClass.notGt] ++ lits ("src=\"") ++
    [RAtom.star CClass.notQuote] ++ lits ("chunk.") ++
    [RAtom.star CClass.notQuote] ++ lits (".js\"") ++
    [RAtom.star CClass.notGt] ++ lits ("></script>")

/-- Pattern of line 87 (re.DOTALL): an inline React bootstrap script. -/
def pReact : List RAtom :=
  lits ("<script>window.__REACT") ++ [RAtom.lazyStar CClass.anyc] ++
    lits ("</script>")

/-!
The fixed strings of content_utils.py.
-/

/-- Lines 6-7: ensure the path starts with a slash. -/
def normPath (path : List Char) : List Char :=
  if startsL (("/").data) path then path else '/' :: path

/-- Line 64: the canonical tag inserted after the opening head tag. -/
def canonicalTag (domain path : List Char) : List Char :=
  ("<link rel=\"canonical\" href=\"https://").data ++ domain ++ path ++
    ("\" />").data

/-- Lines 99-101: the clickability style block (braces written as their
code points). -/
def cssFix : List Char :=
  ("<style>\na, a *, [href] \x7b pointer-events: auto !important; cursor: pointer !important; \x7d\n</style>").data

/-- Line 106: the class-qualified empty root container. -/
def marker1 : List Char :=
  ("<div class=\"main-window\" id=\"root\"></div>").data

/-- Line 107: the plain empty root container. -/
def marker2 : List Char := ("<div id=\"root\"></div>").data

/-- Opening of the class-qualified container, used in the replacement of
line 128. -/
def divOpen1 : List Char :=
  ("<div class=\"main-window\" id=\"root\">").data

/-- Opening of the plain container, used in the replacement of line 132. -/
def divOpen2 : List Char := ("<div id=\"root\">").data

/-- Lines 119-126: the fallback block, as a function of the extracted title
and description (apostrophes written as their code point). -/
def fallbackContent (title desc : List Char) : List Char :=
  ("\n<div style=\"max-width: 800px; margin: 50px auto; padding: 20px; font-family: -apple-system, BlinkMacSystemFont, \x27Segoe UI\x27, Roboto, sans-serif;\">\n    <h1 style=\"color: #333;\">").data ++
    title ++
    ("</h1>\n    <p style=\"color: #666; font-size: 18px;\">").data ++
    desc ++
    ("</p>\n    <hr style=\"margin: 30px 0; border: none; border-top: 1px solid #eee;\">\n    <p style=\"color: #999;\">This page\x27s full content was not archived. <a href=\"/\" style=\"color: #e82f64;\">Return to homepage</a></p>\n</div>\n").data

/-- Line 110: re.search for the title text; the group [^<]+ is the maximal
nonempty run of non-< characters, which must be followed by the closing
tag, else the search advances one position. -/
def findTitle : List Char → Option (List Char)
  | [] => none
  | s@(_ :: rest) =>
      if startsL (("<title>").data) s then
        let r := s.drop (("<title>").data).length
        let run := r.takeWhile (fun c => c ≠ '<')
        if run ≠ [] ∧ startsL (("</title>").data) (r.drop run.length) then
          some run
        else findTitle rest
      else findTitle rest

/-- Lines 111-114: re.search for the description meta content; the group
[^"]+ is the maximal nonempty run of non-quote characters, which must be
followed by a closing quote. -/
def findDesc : List Char → Option (List Char)
  | [] => none
  | s@(_ :: rest) =>
      if startsL (("<meta name=\"description\" content=\"").data) s then
        let r := s.drop (("<meta name=\"description\" content=\"").data).length
        let run := r.takeWhile (fun c => c ≠ '"')
        if run ≠ [] ∧ startsL (("\"").data) (r.drop run.length) then
          some run
        else findDesc rest
      else findDesc rest

/-!
The transformation stages of fix_content, named after the comment blocks of
content_utils.py and applied in source order.
-/

/-- Lines 9-19: remove the Wayback Machine wrapper. -/
def stripWayback (c : List Char) : List Char :=
  subAll pArchive [] (subAll pArchiveId [] c)

/-- Lines 21-29: rewrite absolute Quibey/Hero links to local paths. -/
def rewriteHosts (c : List Char) : List Char :=
  subAll pSSQuibeyQuote (("/").data)
    (subAll pSSQuibeySlash (("/").data)
      (subAll pSSHeroQuote (("/").data)
        (subAll pSSHeroSlash (("/").data)
          (subAll pHeroQuote (("/").data)
            (subAll pHeroSlash (("/").data)
              (subAll pQuibeyQuote (("/").data)
                (subAll pQuibeySlash (("/").data) c)))))))

/-- Lines 31-55: fix CDN hosts for assets. -/
def fixCdn (c : List Char) : List Char :=
  subAll pSSCdnHero (("//cdn-2.quibey.com").data)
    (subAll pSSCdn2 (("//cdn-2.quibey.com").data)
      (subAll pCdnHero (("https://cdn-2.quibey.com").data)
        (subAll pCdn2 (("https://cdn-2.quibey.com").data) c)))

/-- Lines 57-71: remove existing canonical tags and insert the new one
right after the first opening head tag, when one exists. -/
def canonStage (path domain c : List Char) : List Char :=
  if searchExists pHead (subAll pCanon [] c) then
    subFirst pHead (fun m => m ++ '\n' :: canonicalTag domain path)
      (subAll pCanon [] c)
  else subAll pCanon [] c

/-- Lines 73-83: remove the client bundle script tags. -/
def stripBundles (c : List Char) : List Char :=
  subAll pChunk [] (subAll pMain [] c)

/-- Lines 85-91: remove inline React bootstrap scripts. -/
def stripReactBoot (c : List Char) : List Char := subAll pReact [] c

/-- Lines 93-95: neutralize pointer-events: none. -/
def fixPointer (c : List Char) : List Char :=
  replAll (("pointer-events:none").data) (("pointer-events:auto").data)
    (replAll (("pointer-events: none").data) (("pointer-events: auto").data) c)

/-- Lines 97-102: inject the clickability style block before the closing
head tag, when one exists. -/
def injectCss (c : List Char) : List Char :=
  if containsSubstr (("</head>").data) c then
    replAll (("</head>").data) (cssFix ++ ("</head>").data) c
  else c

/-- Lines 109-126: the fallback block built from the title and description
extracted from the content (defaults of lines 116-117). -/
def fallbackFor (c : List Char) : List Char :=
  fallbackContent ((findTitle c).getD (("Hero Page").data))
    ((findDesc c).getD [])

/-- Lines 104-134: the SPA-shell fallback.  The check and the extraction of
title and description operate on the content as it stands after the earlier
rules. -/
def spaFallback (c : List Char) : List Char :=
  if containsSubstr marker1 c || containsSubstr marker2 c then
    replAll marker2 (divOpen2 ++ fallbackFor c ++ ("</div>").data)
      (replAll marker1 (divOpen1 ++ fallbackFor c ++ ("</div>").data) c)
  else c

/-- Content after rules 1-8 of the rewriter (everything except the
SPA-shell fallback), with the path already normalized. -/
def preFallback (content path domain : List Char) : List Char :=
  injectCss (fixPointer (stripReactBoot (stripBundles
    (canonStage (normPath path) domain
      (fixCdn (rewriteHosts (stripWayback content)))))))

/-- content_utils.fix_content, lines 4-136: the full rewriter chain. -/
def fix_content (content path domain : List Char) : List Char :=
  spaFallback (preFallback content path domain)

/-!
proxy_server.py.  The server's pure logic is embedded over an explicit
environment: a consistent snapshot of the file system (regular files as a
map from path to content, plus a directory predicate), the cache directory
(a map from cache file path to content), the configuration flags, and the
outcome each upstream adapter would produce for each path.  The two
adapters themselves (fetch_from_quibey, fetch_from_wayback) drive a
headless browser and the network, so their results enter the model as
these environment-supplied (content, status) pairs; everything downstream
of them is transcribed from the source.
-/

/-- A (content, status) pair as returned by the adapters: content is None
or a string, status an HTTP status code. -/
def FetchResult : Type := Option (List Char) × Nat

/-- Python truthiness of the content component: None and the empty string
are falsy. -/
def truthy : Option (List Char) → Bool
  | none => false
  | some s => ¬ s.isEmpty

/-- proxy_server.fetch_content, lines 166-174: return the Render adapter's
result when it is truthy content with status 200, otherwise return the
Archive adapter's result unchanged. -/
def fetch_content (quibeyRes waybackRes : FetchResult) : FetchResult :=
  if truthy quibeyRes.1 ∧ quibeyRes.2 = 200 then quibeyRes else waybackRes

/-!
MD5, as used by get_cache_path (hashlib.md5 of the UTF-8 encoded path,
hex digest).  Standard RFC 1321 over a byte list, with 32-bit words as
naturals reduced mod 2^32.
-/

/-- UTF-8 encoding of one character as bytes. -/
def bytesOfChar (c : Char) : List Nat :=
  let n := c.toNat
  if n < 128 then [n]
  else if n < 2048 then [192 + n / 64, 128 + n % 64]
  else if n < 65536 then
    [224 + n / 4096, 128 + (n / 64) % 64, 128 + n % 64]
  else
    [240 + n / 262144, 128 + (n / 4096) % 64, 128 + (n / 64) % 64,
      128 + n % 64]

/-- UTF-8 encoding of a string (Python str.encode()). -/
def utf8Bytes (s : List Char) : List Nat := (s.map bytesOfChar).flatten

/-- 2^32. -/
def m32 : Nat := 4294967296

/-- 32-bit left rotation of a word below 2^32. -/
def rotl32 (x n : Nat) : Nat := (x * 2 ^ n + x / 2 ^ (32 - n)) % m32

/-- 32-bit bitwise complement of a word below 2^32. -/
def not32 (x : Nat) : Nat := 4294967295 - x

/-- The 64 MD5 sine-derived constants. -/
def md5K : List Nat :=
  [0xd76aa478, 0xe8c7b756, 0x242070db, 0xc1bdceee,
   0xf57c0faf, 0x4787c62a, 0xa8304613, 0xfd469501,
   0x698098d8, 0x8b44f7af, 0xffff5bb1, 0x895cd7be,
   0x6b901122, 0xfd987193, 0xa679438e, 0x49b40821,
   0xf61e2562, 0xc040b340, 0x265e5a51, 0xe9b6c7aa,
   0xd62f105d, 0x02441453, 0xd8a1e681, 0xe7d3fbc8,
   0x21e1cde6, 0xc33707d6, 0xf4d50d87, 0x455a14ed,
   0xa9e3e905, 0xfcefa3f8, 0x676f02d9, 0x8d2a4c8a,
   0xfffa3942, 0x8771f681, 0x6d9d6122, 0xfde5380c,
   0xa4beea44, 0x4bdecfa9, 0xf6bb4b60, 0xbebfbc70,
   0x289b7ec6, 0xeaa127fa, 0xd4ef3085, 0x04881d05,
   0xd9d4d039, 0xe6db99e5, 0x1fa27cf8, 0xc4ac5665,
   0xf4292244, 0x432aff97, 0xab9423a7, 0xfc93a039,
   0x655b59c3, 0x8f0ccc92, 0xffeff47d, 0x85845dd1,
   0x6fa87e4f, 0xfe2ce6e0, 0xa3014314, 0x4e0811a1,
   0xf7537e82, 0xbd3af235, 0x2ad7d2bb, 0xeb86d391]

/-- The 64 MD5 per-round rotation amounts. -/
def md5S : List Nat :=
  [7, 12, 17, 22, 7, 12, 17, 22, 7, 12, 17, 22, 7, 12, 17, 22,
   5, 9, 14, 20, 5, 9, 14, 20, 5, 9, 14, 20, 5, 9, 14, 20,
   4, 11, 16, 23, 4, 11, 16, 23, 4, 11, 16, 23, 4, 11, 16, 23,
   6, 10, 15, 21, 6, 10, 15, 21, 6, 10, 15, 21, 6, 10, 15, 21]

/-- MD5 message padding: a 1 bit, zeros to 56 mod 64 bytes, then the bit
length as 8 little-endian bytes. -/
def md5Pad (msg : List Nat) : List Nat :=
  let len := msg.length
  let padLen := (119 - len % 64) % 64
  let bits := (len * 8) % (2 ^ 64)
  msg ++ [128] ++ List.replicate padLen 0 ++
    [bits % 256, bits / 256 % 256, bits / 65536 % 256, bits / 16777216 % 256,
     bits / 4294967296 % 256, bits / 1099511627776 % 256,
     bits / 281474976710656 % 256, bits / 72057594037927936 % 256]

/-- Split a byte list into 64-byte blocks. -/
def md5ChunksF : Nat → List Nat → List (List Nat)
  | 0, _ => []
  | fuel + 1, l => if l.isEmpty then [] else l.take 64 :: md5ChunksF fuel (l.drop 64)

/-- The little-endian 32-bit word at index i of a 64-byte block. -/
def md5Word (block : List Nat) (i : Nat) : Nat :=
  (block.getD (4 * i) 0) + 256 * (block.getD (4 * i + 1) 0) +
    65536 * (block.getD (4 * i + 2) 0) + 16777216 * (block.getD (4 * i + 3) 0)

/-- One of the 64 MD5 rounds applied to the running state (a, b, c, d). -/
def md5Round (block : List Nat) (st : Nat × Nat × Nat × Nat) (i : Nat) :
    Nat × Nat × Nat × Nat :=
  let a := st.1; let b := st.2.1; let c := st.2.2.1; let d := st.2.2.2
  let f :=
    if i < 16 then (b.land c).lor ((not32 b).land d)
    else if i < 32 then (d.land b).lor ((not32 d).land c)
    else if i < 48 then (b.xor c).xor d
    else c.xor (b.lor (not32 d))
  let g :=
    if i < 16 then i
    else if i < 32 then (5 * i + 1) % 16
    else if i < 48 then (3 * i + 5) % 16
    else (7 * i) % 16
  let tmp := (a + f + md5K.getD i 0 + md5Word block g) % m32
  let nb := (b + rotl32 tmp (md5S.getD i 0)) % m32
  (d, nb, b, c)

/-- Process one 64-byte block into the MD5 state (h0, h1, h2, h3). -/
def md5Block (h : Nat × Nat × Nat × Nat) (block : List Nat) :
    Nat × Nat × Nat × Nat :=
  let st := (List.range 64).foldl (md5Round block) h
  ((h.1 + st.1) % m32, (h.2.1 + st.2.1) % m32,
    (h.2.2.1 + st.2.2.1) % m32, (h.2.2.2 + st.2.2.2) % m32)

/-- A nibble as a lowercase hex character. -/
def hexDigit (k : Nat) : Char :=
  if k < 10 then Char.ofNat (48 + k) else Char.ofNat (87 + k)

/-- A 32-bit word as 8 hex characters, little-endian byte order as in the
MD5 digest. -/
def hexWordLE (w : Nat) : List Char :=
  [hexDigit (w % 256 / 16), hexDigit (w % 16),
   hexDigit (w / 256 % 256 / 16), hexDigit (w / 256 % 16),
   hexDigit (w / 65536 % 256 / 16), hexDigit (w / 65536 % 16),
   hexDigit (w / 16777216 % 256 / 16), hexDigit (w / 16777216 % 16)]

/-- hashlib.md5(bytes).hexdigest(). -/
def md5Hex (msg : List Nat) : List Char :=
  let padded := md5Pad msg
  let chunks := md5ChunksF (padded.length + 1) padded
  let h := chunks.foldl md5Block (0x67452301, 0xefcdab89, 0x98badcfe, 0x10325476)
  hexWordLE h.1 ++ hexWordLE h.2.1 ++ hexWordLE h.2.2.1 ++ hexWordLE h.2.2.2

/-- proxy_server.get_cache_path, lines 52-55: the cache file for a URL path
is CACHE_DIR / md5(path).html. -/
def get_cache_path (path : List Char) : List Char :=
  ("cache/").data ++ md5Hex (utf8Bytes path) ++ (".html").data

/-!
The request router (WaybackProxyHandler.do_GET and its helpers), embedded
as a pure function of the environment snapshot and the raw request path.
It returns the response sent to the client and the cache directory as it
stands afterwards.  A broken client connection only suppresses the write
of an already-shaped response, so it does not appear in the model.
-/

/-- The environment a single GET request runs against: regular files (by
path, with files holding the text that a successful read produces), the
directory predicate, the cache directory contents (by cache file path, as
stored by write_text), the configuration, and the result each adapter
would produce for each path.  readFails marks the files whose read_bytes
(or whose response write, other than a client disconnect) raises inside
serve_local_file's try block, driving it into its except-branch; the
unguarded reads elsewhere in do_GET are taken from the snapshot maps,
since an exception there propagates out of the handler and aborts the
connection without any response being sent. -/
structure Env where
  files : List Char → Option (List Char)
  isDir : List Char → Bool
  cache : List Char → Option (List Char)
  allowRemote : Bool
  domain : List Char
  quibey : List Char → FetchResult
  wayback : List Char → FetchResult
  readFails : List Char → Bool

/-- The response shaped for the client: status code, Content-Type header
value, body. -/
structure Resp where
  status : Nat
  ctype : List Char
  body : List Char
deriving DecidableEq

/-- Line 178: the part of self.path before the first question mark,
dropping the query string. -/
def stripQuery (p : List Char) : List Char := p.takeWhile (fun c => c ≠ '?')

/-- Python str.lstrip of the slash: drop all leading slashes. -/
def lstripSlash (p : List Char) : List Char := p.dropWhile (fun c => c = '/')

/-- pathlib joining used on lines 182, 194, 196: base / rel, where an empty
relative part leaves the base unchanged. -/
def joinPath (a b : List Char) : List Char :=
  if b.isEmpty then a else a ++ '/' :: b

/-- ASCII lowercase of a character, used for the extension table lookup. -/
def lowerCh (c : Char) : Char :=
  if c.toNat < 55296 then Char.ofNat (lowerN c.toNat) else c

/-- pathlib suffix of a path, lowercased (line 269): the final component's
extension including the dot, empty when the final component has no dot
after its first character. -/
def extSuffix (p : List Char) : List Char :=
  let name := (p.reverse.takeWhile (fun c => c ≠ '/')).reverse
  let afterDot := (name.reverse.takeWhile (fun c => c ≠ '.')).reverse
  if afterDot ≠ [] ∧ afterDot.length + 1 < name.length then
    ('.' :: afterDot).map lowerCh
  else []

/-- Lines 270-283: the extension to Content-Type table, defaulting to the
generic binary type. -/
def contentTypeFor (p : List Char) : List Char :=
  let e := extSuffix p
  if e = (".html").data then ("text/html").data
  else if e = (".css").data then ("text/css").data
  else if e = (".js").data then ("application/javascript").data
  else if e = (".json").data then ("application/json").data
  else if e = (".png").data then ("image/png").data
  else if e = (".jpg").data then ("image/jpeg").data
  else if e = (".jpeg").data then ("image/jpeg").data
  else if e = (".gif").data then ("image/gif").data
  else if e = (".svg").data then ("image/svg+xml").data
  else if e = (".ico").data then ("image/x-icon").data
  else if e = (".webp").data then ("image/webp").data
  else ("application/octet-stream").data

/-- Lines 180-191: the SEO-file branch.  When the path names one of the two
SEO artifacts and the corresponding local file exists, the response is the
file's contents under the matching content type; otherwise the branch
falls through. -/
def seoHit (env : Env) (path : List Char) : Option Resp :=
  if path = ("/sitemap.xml").data ∨ path = ("/robots.txt").data then
    match env.files (lstripSlash path) with
    | some content =>
        some { status := 200,
               ctype := if path = ("/sitemap.xml").data then
                   ("application/xml").data
                 else ("text/plain").data,
               body := content }
    | none => none
  else none

/-- Lines 193-199: resolve a path against the static_pages tree, mapping a
directory to its index.html; returns the resolved file path and contents
when an existing regular file results. -/
def staticResolve (env : Env) (path : List Char) :
    Option (List Char × List Char) :=
  let lf := joinPath (("static_pages").data) (lstripSlash path)
  let lf2 :=
    if env.isDir lf ∧ (env.files (joinPath lf (("index.html").data))).isSome
    then joinPath lf (("index.html").data)
    else lf
  match env.files lf2 with
  | some content => some (lf2, content)
  | none => none

/-- Lines 264-293: serve_local_file on an existing file of the snapshot.
The try-body reads the file and sends status 200 with the
extension-derived content type and the file's bytes; when the read (or a
write other than a client disconnect) raises, the except-branch of lines
292-293 answers with send_error(500, str(e)).  send_error's generated HTML
error page depends on the exception text, so its body is not modelled; no
claim refers to it. -/
def serve_local_file (env : Env) (fp content : List Char) : Resp :=
  if env.readFails fp then
    { status := 500, ctype := ("text/html;charset=utf-8").data, body := [] }
  else
    { status := 200, ctype := contentTypeFor fp, body := content }

/-- Lines 295-305: send_html_response always uses the HTML content type. -/
def send_html_response (status : Nat) (content : List Char) : Resp :=
  { status := status, ctype := ("text/html; charset=utf-8").data,
    body := content }

/-- Lines 212-221: the static-only 404 page. -/
def unavailablePage (path : List Char) : List Char :=
  ("\n<!DOCTYPE html>\n<html>\n<head><title>Content Unavailable</title></head>\n<body>\n<h1>Content Unavailable</h1>\n<p>The page ").data ++
    path ++
    (" is not available in static-only mode.</p>\n<p><a href=\"/\">Go to homepage</a></p>\n</body>\n</html>").data

/-- Lines 239-248: the empty-upstream-response 404 page. -/
def emptyPage (path : List Char) : List Char :=
  ("\n<!DOCTYPE html>\n<html>\n<head><title>Content Unavailable</title></head>\n<body>\n<h1>Content Unavailable</h1>\n<p>The archived content for ").data ++
    path ++
    (" could not be retrieved.</p>\n<p><a href=\"/\">Go to homepage</a></p>\n</body>\n</html>").data

/-- Lines 252-262: the generic 404 page. -/
def notFoundPage (path : List Char) : List Char :=
  ("\n<!DOCTYPE html>\n<html>\n<head><title>Page Not Found</title></head>\n<body>\n<h1>404 - Page Not Found</h1>\n<p>The page ").data ++
    path ++
    (" could not be found.</p>\n<p><a href=\"/\">Go to homepage</a></p>\n</body>\n</html>\n").data

/-- Python's read_text under the default newline=None (universal
newlines): every CRLF pair and every lone CR in the decoded text becomes a
single LF.  write_text under the default newline maps LF to os.linesep,
the identity on the POSIX host, so writes store the text unchanged. -/
def univNewlines : List Char → List Char
  | [] => []
  | [c] => if c = '\r' then ['\n'] else [c]
  | c :: d :: rest =>
      if c = '\r' then
        if d = '\n' then '\n' :: univNewlines rest
        else '\n' :: univNewlines (d :: rest)
      else c :: univNewlines (d :: rest)

/-- WaybackProxyHandler.do_GET, lines 177-262: route one GET request and
return the client response together with the cache directory afterwards.
The cache-hit branch reads the cache file with read_text, which applies
universal-newline translation to the stored text. -/
def do_GET (env : Env) (rawPath : List Char) :
    Resp × (List Char → Option (List Char)) :=
  let path := stripQuery rawPath
  match seoHit env path with
  | some r => (r, env.cache)
  | none =>
    match staticResolve env path with
    | some (fp, content) => (serve_local_file env fp content, env.cache)
    | none =>
      let cache_path := get_cache_path path
      match env.cache cache_path with
      | some content => (send_html_response 200 (univNewlines content), env.cache)
      | none =>
        if ¬ env.allowRemote then
          (send_html_response 404 (unavailablePage path), env.cache)
        else
          let res := fetch_content (env.quibey path) (env.wayback path)
          if truthy res.1 ∧ res.2 = 200 then
            let fixed := fix_content ((res.1).getD []) path env.domain
            (send_html_response 200 fixed,
              fun q => if q = cache_path then some fixed else env.cache q)
          else if res.2 = 200 ∧ ¬ truthy res.1 then
            (send_html_response 404 (emptyPage path), env.cache)
          else
            (send_html_response 404 (notFoundPage path), env.cache)

/-!
Matcher lemmas.  The central tool: a pattern that contains a literal atom
whose character does not occur in the string can never match, so the
corresponding re.sub / re.search / str.replace pass is the identity there.
-/

/-- The atom can match no character of s (only literal atoms block). -/
def blocked : RAtom → List Char → Prop
  | .lit c, s => c ∉ s
  | .litCI c, s => ∀ x ∈ s, lowerN x.toNat ≠ c.toNat
  | _, _ => False

theorem blocked_lit {c : Char} {s : List Char} : blocked (RAtom.lit c) s ↔ c ∉ s :=
  Iff.rfl

theorem blocked_litCI {c : Char} {s : List Char} :
    blocked (RAtom.litCI c) s ↔ ∀ x ∈ s, lowerN x.toNat ≠ c.toNat :=
  Iff.rfl

theorem blocked_of_sub (a : RAtom) {s t : List Char}
    (hsub : ∀ x ∈ t, x ∈ s) (h : blocked a s) : blocked a t := by
  cases a with
  | lit c => exact fun hc => h (hsub c hc)
  | litCI c => exact fun x hx => h x (hsub x hx)
  | opt c => exact h.elim
  | optCI c => exact h.elim
  | cls cc => exact h.elim
  | star cc => exact h.elim
  | lazyStar cc => exact h.elim
  | plusG cc => exact h.elim
  | ahead cc => exact h.elim

theorem blocked_append {a : RAtom} {s t : List Char}
    (h1 : blocked a s) (h2 : blocked a t) : blocked a (s ++ t) := by
  cases a with
  | lit c => simp only [blocked, List.mem_append] at *; exact fun h => h.elim h1 h2
  | litCI c =>
      intro x hx
      rcases List.mem_append.mp hx with h | h
      · exact h1 x h
      · exact h2 x h
  | opt c => exact h1.elim
  | optCI c => exact h1.elim
  | cls cc => exact h1.elim
  | star cc => exact h1.elim
  | lazyStar cc => exact h1.elim
  | plusG cc => exact h1.elim
  | ahead cc => exact h1.elim

theorem matchAtoms_none_of_blocked (a : RAtom) :
    ∀ (pat : List RAtom) (s : List Char), a ∈ pat → blocked a s →
      matchAtoms pat s = none := by
  intro pat
  induction pat with
  | nil => intro s ha; exact absurd ha (List.not_mem_nil a)
  | cons b rest ih =>
    intro s ha hb
    have hsub : ∀ t : List Char, (∀ x ∈ t, x ∈ s) → blocked a t :=
      fun t ht => blocked_of_sub a ht hb
    rcases List.mem_cons.mp ha with rfl | hmem
    · cases a with
      | lit c =>
        cases s with
        | nil => rfl
        | cons x s' =>
          have hx : x ≠ c := fun h => hb (h ▸ List.mem_cons_self x s')
          simp [matchAtoms, hx]
      | litCI c =>
        cases s with
        | nil => rfl
        | cons x s' =>
          have hx := hb x (List.mem_cons_self x s')
          simp [matchAtoms, hx]
      | opt c => exact hb.elim
      | optCI c => exact hb.elim
      | cls cc => exact hb.elim
      | star cc => exact hb.elim
      | lazyStar cc => exact hb.elim
      | plusG cc => exact hb.elim
      | ahead cc => exact hb.elim
    · have ihs : ∀ t : List Char, (∀ x ∈ t, x ∈ s) → matchAtoms rest t = none :=
        fun t ht => ih t hmem (hsub t ht)
      have ihdrop : ∀ k, matchAtoms rest (s.drop k) = none :=
        fun k => ihs (s.drop k) (fun x hx => List.mem_of_mem_drop hx)
      cases b with
      | lit c =>
        cases s with
        | nil => rfl
        | cons x s' =>
          by_cases hx : x = c
          · simp [matchAtoms, hx,
              ihs s' (fun y hy => List.mem_cons_of_mem x hy)]
          · simp [matchAtoms, hx]
      | litCI c =>
        cases s with
        | nil => rfl
        | cons x s' =>
          by_cases hx : lowerN x.toNat = c.toNat
          · simp [matchAtoms, hx,
              ihs s' (fun y hy => List.mem_cons_of_mem x hy)]
          · simp [matchAtoms, hx]
      | opt c =>
        cases s with
        | nil => exact ihs [] (by simp)
        | cons x s' =>
          have h1 := ihs s' (fun y hy => List.mem_cons_of_mem x hy)
          have h2 := ihs (x :: s') (fun y hy => hy)
          by_cases hx : x = c
          · subst hx; simp [matchAtoms, h1, h2]
          · simp [matchAtoms, hx, h2]
      | optCI c =>
        cases s with
        | nil => exact ihs [] (by simp)
        | cons x s' =>
          have h1 := ihs s' (fun y hy => List.mem_cons_of_mem x hy)
          have h2 := ihs (x :: s') (fun y hy => hy)
          by_cases hx : lowerN x.toNat = c.toNat <;> simp [matchAtoms, hx, h1, h2]
      | cls cc =>
        cases s with
        | nil => rfl
        | cons x s' =>
          have h1 := ihs s' (fun y hy => List.mem_cons_of_mem x hy)
          by_cases hx : cc.test x <;> simp [matchAtoms, hx, h1]
      | star cc =>
        simp only [matchAtoms]
        exact List.findSome?_eq_none_iff.mpr (fun k _ => by simp [ihdrop k])
      | lazyStar cc =>
        simp only [matchAtoms]
        exact List.findSome?_eq_none_iff.mpr (fun k _ => by simp [ihdrop k])
      | plusG cc =>
        simp only [matchAtoms]
        exact List.findSome?_eq_none_iff.mpr (fun k _ => by simp [ihdrop k])
      | ahead cc =>
        cases s with
        | nil => rfl
        | cons x s' =>
          have h2 := ihs (x :: s') (fun y hy => hy)
          by_cases hx : cc.test x <;> simp [matchAtoms, hx, h2]

/-- The atom rejects this character outright (only literal atoms do). -/
def blocksHead : RAtom → Char → Prop
  | .lit c, x => x ≠ c
  | .litCI c, x => lowerN x.toNat ≠ c.toNat
  | _, _ => False

instance (a : RAtom) (s : List Char) : Decidable (blocked a s) :=
  match a with
  | .lit c => (inferInstance : Decidable (c ∉ s))
  | .litCI c =>
      (inferInstance : Decidable (∀ x ∈ s, lowerN x.toNat ≠ c.toNat))
  | .opt _ => (inferInstance : Decidable False)
  | .optCI _ => (inferInstance : Decidable False)
  | .cls _ => (inferInstance : Decidable False)
  | .star _ => (inferInstance : Decidable False)
  | .lazyStar _ => (inferInstance : Decidable False)
  | .plusG _ => (inferInstance : Decidable False)
  | .ahead _ => (inferInstance : Decidable False)

instance (a : RAtom) (x : Char) : Decidable (blocksHead a x) :=
  match a with
  | .lit c => (inferInstance : Decidable (x ≠ c))
  | .litCI c => (inferInstance : Decidable (lowerN x.toNat ≠ c.toNat))
  | .opt _ => (inferInstance : Decidable False)
  | .optCI _ => (inferInstance : Decidable False)
  | .cls _ => (inferInstance : Decidable False)
  | .star _ => (inferInstance : Decidable False)
  | .lazyStar _ => (inferInstance : Decidable False)
  | .plusG _ => (inferInstance : Decidable False)
  | .ahead _ => (inferInstance : Decidable False)

theorem matchAtoms_cons_none {a : RAtom} {rest : List RAtom} {x : Char}
    {s : List Char} (h : blocksHead a x) :
    matchAtoms (a :: rest) (x :: s) = none := by
  cases a with
  | lit c => simp only [matchAtoms]; rw [if_neg h]
  | litCI c => simp only [matchAtoms]; rw [if_neg h]
  | opt c => exact h.elim
  | optCI c => exact h.elim
  | cls cc => exact h.elim
  | star cc => exact h.elim
  | lazyStar cc => exact h.elim
  | plusG cc => exact h.elim
  | ahead cc => exact h.elim

/-!
Unfolding and identity lemmas for the scanning drivers.
-/

theorem subAllF_nil (pat : List RAtom) (repl : List Char) :
    ∀ f, subAllF pat repl f [] = [] := by
  intro f; cases f <;> rfl

theorem subAllF_congr (pat : List RAtom) (repl : List Char) :
    ∀ f1 f2 s, s.length ≤ f1 → s.length ≤ f2 →
      subAllF pat repl f1 s = subAllF pat repl f2 s := by
  intro f1
  induction f1 with
  | zero =>
    intro f2 s h1 _
    have : s = [] := List.eq_nil_of_length_eq_zero (Nat.le_zero.mp h1)
    subst this
    rw [subAllF_nil, subAllF_nil]
  | succ g1 ih =>
    intro f2 s h1 h2
    cases s with
    | nil => rw [subAllF_nil, subAllF_nil]
    | cons c rest =>
      cases f2 with
      | zero => simp at h2
      | succ g2 =>
        simp only [subAllF]
        cases hm : matchAtoms pat (c :: rest) with
        | none =>
          have hr : rest.length ≤ g1 := by simp at h1; omega
          have hr2 : rest.length ≤ g2 := by simp at h2; omega
          rw [ih g2 rest hr hr2]
        | some n =>
          by_cases hn : 0 < n
          · simp only [hn, if_true]
            have hd : ((c :: rest).drop n).length ≤ g1 := by
              rw [List.length_drop]; simp at h1 ⊢; omega
            have hd2 : ((c :: rest).drop n).length ≤ g2 := by
              rw [List.length_drop]; simp at h2 ⊢; omega
            rw [ih g2 _ hd hd2]
          · simp only [hn, if_false]
            have hr : rest.length ≤ g1 := by simp at h1; omega
            have hr2 : rest.length ≤ g2 := by simp at h2; omega
            rw [ih g2 rest hr hr2]

theorem subAll_nil (pat : List RAtom) (repl : List Char) :
    subAll pat repl [] = [] := rfl

theorem subAll_cons_none {pat : List RAtom} {repl : List Char} {c : Char}
    {s : List Char} (hm : matchAtoms pat (c :: s) = none) :
    subAll pat repl (c :: s) = c :: subAll pat repl s := by
  show subAllF pat repl (s.length + 1) (c :: s) = _
  simp only [subAllF, hm]
  rfl

theorem subAll_cons_match {pat : List RAtom} {repl : List Char} {c : Char}
    {s : List Char} {n : Nat} (hm : matchAtoms pat (c :: s) = some n)
    (hn : 0 < n) :
    subAll pat repl (c :: s) = repl ++ subAll pat repl ((c :: s).drop n) := by
  show subAllF pat repl (s.length + 1) (c :: s) = _
  simp only [subAllF, hm, hn, if_true]
  refine congrArg (repl ++ ·) (subAllF_congr pat repl _ _ _ ?_ ?_)
  · rw [List.length_drop]; simp; omega
  · exact le_refl _

theorem subAll_append_skip {a : RAtom} {rest : List RAtom} {repl : List Char}
    (pre s : List Char) (h : ∀ x ∈ pre, blocksHead a x) :
    subAll (a :: rest) repl (pre ++ s) = pre ++ subAll (a :: rest) repl s := by
  induction pre with
  | nil => rfl
  | cons x pre' ih =>
    have hm : matchAtoms (a :: rest) (x :: (pre' ++ s)) = none :=
      matchAtoms_cons_none (h x (List.mem_cons_self x pre'))
    rw [List.cons_append, subAll_cons_none hm,
      ih (fun y hy => h y (List.mem_cons_of_mem x hy))]
    rfl

theorem subAll_id_of_blocked {pat : List RAtom} {repl : List Char} (a : RAtom)
    (ha : a ∈ pat) : ∀ s, blocked a s → subAll pat repl s = s := by
  intro s
  induction s with
  | nil => intro _; rfl
  | cons x s' ih =>
    intro hb
    rw [subAll_cons_none (matchAtoms_none_of_blocked a pat (x :: s') ha hb),
      ih (blocked_of_sub a (fun y hy => List.mem_cons_of_mem x hy) hb)]

theorem countMatchesF_nil (pat : List RAtom) :
    ∀ f, countMatchesF pat f [] = 0 := by
  intro f; cases f <;> rfl

theorem countMatchesF_congr (pat : List RAtom) :
    ∀ f1 f2 s, s.length ≤ f1 → s.length ≤ f2 →
      countMatchesF pat f1 s = countMatchesF pat f2 s := by
  intro f1
  induction f1 with
  | zero =>
    intro f2 s h1 _
    have : s = [] := List.eq_nil_of_length_eq_zero (Nat.le_zero.mp h1)
    subst this
    rw [countMatchesF_nil, countMatchesF_nil]
  | succ g1 ih =>
    intro f2 s h1 h2
    cases s with
    | nil => rw [countMatchesF_nil, countMatchesF_nil]
    | cons c rest =>
      cases f2 with
      | zero => simp at h2
      | succ g2 =>
        simp only [countMatchesF]
        cases hm : matchAtoms pat (c :: rest) with
        | none =>
          have hr : rest.length ≤ g1 := by simp at h1; omega
          have hr2 : rest.length ≤ g2 := by simp at h2; omega
          rw [ih g2 rest hr hr2]
        | some n =>
          by_cases hn : 0 < n
          · simp only [hn, if_true]
            have hd : ((c :: rest).drop n).length ≤ g1 := by
              rw [List.length_drop]; simp at h1 ⊢; omega
            have hd2 : ((c :: rest).drop n).length ≤ g2 := by
              rw [List.length_drop]; simp at h2 ⊢; omega
            rw [ih g2 _ hd hd2]
          · simp only [hn, if_false]
            have hr : rest.length ≤ g1 := by simp at h1; omega
            have hr2 : rest.length ≤ g2 := by simp at h2; omega
            rw [ih g2 rest hr hr2]

theorem countMatches_nil (pat : List RAtom) : countMatches pat [] = 0 := rfl

theorem countMatches_cons_none {pat : List RAtom} {c : Char} {s : List Char}
    (hm : matchAtoms pat (c :: s) = none) :
    countMatches pat (c :: s) = countMatches pat s := by
  show countMatchesF pat (s.length + 1) (c :: s) = _
  simp only [countMatchesF, hm]
  rfl

theorem countMatches_cons_match {pat : List RAtom} {c : Char} {s : List Char}
    {n : Nat} (hm : matchAtoms pat (c :: s) = some n) (hn : 0 < n) :
    countMatches pat (c :: s) = 1 + countMatches pat ((c :: s).drop n) := by
  show countMatchesF pat (s.length + 1) (c :: s) = _
  simp only [countMatchesF, hm, hn, if_true]
  refine congrArg (1 + ·) (countMatchesF_congr pat _ _ _ ?_ ?_)
  · rw [List.length_drop]; simp; omega
  · exact le_refl _

theorem countMatches_append_skip {a : RAtom} {rest : List RAtom}
    (pre s : List Char) (h : ∀ x ∈ pre, blocksHead a x) :
    countMatches (a :: rest) (pre ++ s) = countMatches (a :: rest) s := by
  induction pre with
  | nil => rfl
  | cons x pre' ih =>
    have hm : matchAtoms (a :: rest) (x :: (pre' ++ s)) = none :=
      matchAtoms_cons_none (h x (List.mem_cons_self x pre'))
    rw [List.cons_append, countMatches_cons_none hm,
      ih (fun y hy => h y (List.mem_cons_of_mem x hy))]

theorem countMatches_zero_of_blocked {pat : List RAtom} (a : RAtom)
    (ha : a ∈ pat) : ∀ s, blocked a s → countMatches pat s = 0 := by
  intro s
  induction s with
  | nil => intro _; rfl
  | cons x s' ih =>
    intro hb
    rw [countMatches_cons_none (matchAtoms_none_of_blocked a pat (x :: s') ha hb),
      ih (blocked_of_sub a (fun y hy => List.mem_cons_of_mem x hy) hb)]

theorem searchExists_cons (pat : List RAtom) (x : Char) (s : List Char) :
    searchExists pat (x :: s) =
      ((matchAtoms pat (x :: s)).isSome || searchExists pat s) := rfl

theorem searchExists_false_of_blocked {pat : List RAtom} (a : RAtom)
    (ha : a ∈ pat) : ∀ s, blocked a s → searchExists pat s = false := by
  intro s
  induction s with
  | nil =>
    intro hb
    show (matchAtoms pat []).isSome = false
    rw [matchAtoms_none_of_blocked a pat [] ha hb]; rfl
  | cons x s' ih =>
    intro hb
    rw [searchExists_cons,
      matchAtoms_none_of_blocked a pat (x :: s') ha hb,
      ih (blocked_of_sub a (fun y hy => List.mem_cons_of_mem x hy) hb)]
    rfl

theorem searchExists_append_skip {a : RAtom} {rest : List RAtom}
    (pre s : List Char) (h : ∀ x ∈ pre, blocksHead a x) :
    searchExists (a :: rest) (pre ++ s) = searchExists (a :: rest) s := by
  induction pre with
  | nil => rfl
  | cons x pre' ih =>
    have hm : matchAtoms (a :: rest) (x :: (pre' ++ s)) = none :=
      matchAtoms_cons_none (h x (List.mem_cons_self x pre'))
    rw [List.cons_append, searchExists_cons, hm,
      ih (fun y hy => h y (List.mem_cons_of_mem x hy))]
    rfl

theorem subFirst_cons_none {pat : List RAtom} {f : List Char → List Char}
    {c : Char} {s : List Char} (hm : matchAtoms pat (c :: s) = none) :
    subFirst pat f (c :: s) = c :: subFirst pat f s := by
  simp only [subFirst, hm]

theorem subFirst_cons_match {pat : List RAtom} {f : List Char → List Char}
    {c : Char} {s : List Char} {n : Nat}
    (hm : matchAtoms pat (c :: s) = some n) :
    subFirst pat f (c :: s) = f ((c :: s).take n) ++ (c :: s).drop n := by
  simp only [subFirst, hm]

theorem subFirst_append_skip {a : RAtom} {rest : List RAtom}
    {f : List Char → List Char} (pre s : List Char)
    (h : ∀ x ∈ pre, blocksHead a x) :
    subFirst (a :: rest) f (pre ++ s) = pre ++ subFirst (a :: rest) f s := by
  induction pre with
  | nil => rfl
  | cons x pre' ih =>
    have hm : matchAtoms (a :: rest) (x :: (pre' ++ s)) = none :=
      matchAtoms_cons_none (h x (List.mem_cons_self x pre'))
    rw [List.cons_append, subFirst_cons_none hm,
      ih (fun y hy => h y (List.mem_cons_of_mem x hy))]
    rfl

/-!
Lemmas about startsL, containsSubstr and replAll.
-/

theorem startsL_mem {t s : List Char} (h : startsL t s = true) :
    ∀ c ∈ t, c ∈ s := by
  induction t generalizing s with
  | nil => intro c hc; exact absurd hc (List.not_mem_nil c)
  | cons a t' ih =>
    cases s with
    | nil => simp [startsL] at h
    | cons b s' =>
      simp only [startsL, Bool.and_eq_true, decide_eq_true_eq] at h
      intro c hc
      rcases List.mem_cons.mp hc with rfl | hc'
      · exact h.1 ▸ List.mem_cons_self b s'
      · exact List.mem_cons_of_mem b (ih h.2 c hc')

theorem startsL_self_append (t s : List Char) : startsL t (t ++ s) = true := by
  induction t with
  | nil => rfl
  | cons a t' ih => simp [startsL, ih]

theorem contains_false_of_mem {t s : List Char} {c : Char} (hc : c ∈ t)
    (hs : c ∉ s) : containsSubstr t s = false := by
  induction s with
  | nil =>
    cases t with
    | nil => exact absurd hc (List.not_mem_nil c)
    | cons a t' => rfl
  | cons x s' ih =>
    have h1 : startsL t (x :: s') = false := by
      cases h : startsL t (x :: s')
      · rfl
      · exact absurd (startsL_mem h c hc) hs
    simp only [containsSubstr, h1, Bool.false_or]
    exact ih (fun h => hs (List.mem_cons_of_mem x h))

theorem contains_cons (t : List Char) (x : Char) (s : List Char) :
    containsSubstr t (x :: s) = (startsL t (x :: s) || containsSubstr t s) := rfl

theorem contains_append_skip {c : Char} {t : List Char} (pre s : List Char)
    (h : c ∉ pre) :
    containsSubstr (c :: t) (pre ++ s) = containsSubstr (c :: t) s := by
  induction pre with
  | nil => rfl
  | cons x pre' ih =>
    have hx : x ≠ c := fun hh => h (hh ▸ List.mem_cons_self x pre')
    rw [List.cons_append, contains_cons]
    have h1 : startsL (c :: t) (x :: (pre' ++ s)) = false := by
      simp [startsL, Ne.symm hx]
    rw [h1, Bool.false_or, ih (fun hh => h (List.mem_cons_of_mem x hh))]

theorem contains_nil_left : ∀ b : List Char, containsSubstr [] b = true := by
  intro b; cases b <;> rfl

theorem contains_mid (t a b : List Char) :
    containsSubstr t (a ++ (t ++ b)) = true := by
  induction a with
  | nil =>
    cases t with
    | nil => exact contains_nil_left b
    | cons c t' =>
      have h := startsL_self_append (c :: t') b
      rw [List.cons_append] at h
      rw [List.nil_append, List.cons_append, contains_cons, h, Bool.true_or]
  | cons x a' ih => rw [List.cons_append, contains_cons, ih, Bool.or_true]

theorem replAllF_nil (t r : List Char) : ∀ f, replAllF t r f [] = [] := by
  intro f; cases f <;> rfl

theorem replAllF_congr (t r : List Char) :
    ∀ f1 f2 s, s.length ≤ f1 → s.length ≤ f2 →
      replAllF t r f1 s = replAllF t r f2 s := by
  intro f1
  induction f1 with
  | zero =>
    intro f2 s h1 _
    have : s = [] := List.eq_nil_of_length_eq_zero (Nat.le_zero.mp h1)
    subst this
    rw [replAllF_nil, replAllF_nil]
  | succ g1 ih =>
    intro f2 s h1 h2
    cases s with
    | nil => rw [replAllF_nil, replAllF_nil]
    | cons c rest =>
      cases f2 with
      | zero => simp at h2
      | succ g2 =>
        simp only [replAllF]
        by_cases hst : startsL t (c :: rest) = true ∧ t ≠ []
        · rw [if_pos hst, if_pos hst]
          have ht1 : 1 ≤ t.length := List.length_pos.mpr hst.2
          have hd : ((c :: rest).drop t.length).length ≤ g1 := by
            rw [List.length_drop]; simp at h1 ⊢; omega
          have hd2 : ((c :: rest).drop t.length).length ≤ g2 := by
            rw [List.length_drop]; simp at h2 ⊢; omega
          rw [ih g2 _ hd hd2]
        · rw [if_neg hst, if_neg hst]
          have hr : rest.length ≤ g1 := by simp at h1; omega
          have hr2 : rest.length ≤ g2 := by simp at h2; omega
          rw [ih g2 rest hr hr2]

theorem replAll_nil (t r : List Char) : replAll t r [] = [] := rfl

theorem replAll_cons_hit {t r : List Char} {c : Char} {s : List Char}
    (hst : startsL t (c :: s) = true) (ht : t ≠ []) :
    replAll t r (c :: s) = r ++ replAll t r ((c :: s).drop t.length) := by
  show replAllF t r (s.length + 1) (c :: s) = _
  simp only [replAllF]
  rw [if_pos ⟨hst, ht⟩]
  refine congrArg (r ++ ·) (replAllF_congr t r _ _ _ ?_ ?_)
  · rw [List.length_drop]
    have := List.length_pos.mpr ht
    simp at this ⊢; omega
  · exact le_refl _

theorem replAll_cons_miss {t r : List Char} {c : Char} {s : List Char}
    (hst : ¬ (startsL t (c :: s) = true ∧ t ≠ [])) :
    replAll t r (c :: s) = c :: replAll t r s := by
  show replAllF t r (s.length + 1) (c :: s) = _
  simp only [replAllF]
  rw [if_neg hst]
  rfl

theorem replAll_id_of_not_contains {t r : List Char} :
    ∀ s, containsSubstr t s = false → replAll t r s = s := by
  intro s
  induction s with
  | nil => intro _; rfl
  | cons x s' ih =>
    intro hc
    rw [contains_cons] at hc
    have h1 : startsL t (x :: s') = false := by
      cases h : startsL t (x :: s')
      · rfl
      · rw [h] at hc; simp at hc
    have h2 : containsSubstr t s' = false := by
      rw [h1] at hc; simpa using hc
    rw [replAll_cons_miss (by simp [h1]), ih h2]

theorem replAll_id_of_mem {t r : List Char} {c : Char} (hc : c ∈ t) :
    ∀ s, c ∉ s → replAll t r s = s :=
  fun s hs => replAll_id_of_not_contains s (contains_false_of_mem hc hs)

theorem replAll_decomp {t r : List Char} (ht : t ≠ []) :
    ∀ s, containsSubstr t s = true →
      ∃ a b, replAll t r s = a ++ r ++ b := by
  intro s
  induction s with
  | nil =>
    intro hc
    rw [show containsSubstr t [] = t.isEmpty from rfl] at hc
    exact absurd (List.isEmpty_iff.mp hc) ht
  | cons x s' ih =>
    intro hc
    by_cases hst : startsL t (x :: s') = true
    · refine ⟨[], replAll t r ((x :: s').drop t.length), ?_⟩
      rw [replAll_cons_hit hst ht, List.nil_append]
    · rw [contains_cons] at hc
      have h2 : containsSubstr t s' = true := by
        cases h : containsSubstr t s'
        · rw [h, Bool.or_false] at hc; exact absurd hc hst
        · rfl
      obtain ⟨a, b, hab⟩ := ih h2
      refine ⟨x :: a, b, ?_⟩
      rw [replAll_cons_miss (by simp [hst]), hab]
      rfl

/-!
Helper lemmas for discharging blocked-atom hypotheses.
-/

theorem char_toNat_inj {a b : Char} (h : a.toNat = b.toNat) : a = b :=
  Char.ext (UInt32.ext h)

theorem blocked_litCI_nonletter {c : Char}
    (hc : ¬ (97 ≤ c.toNat ∧ c.toNat ≤ 122)) {m : List Char} (hm : c ∉ m) :
    blocked (RAtom.litCI c) m := by
  intro x hx heq
  have hxc : x.toNat = c.toNat := by
    by_cases h65 : 65 ≤ x.toNat ∧ x.toNat ≤ 90
    · rw [lowerN, if_pos h65] at heq; omega
    · rw [lowerN, if_neg h65] at heq; exact heq
  exact hm (char_toNat_inj hxc ▸ hx)

/-!
The cache contract (proxy_server.py).  The cache directory is a map from
cache file paths to file contents; a lookup reads the file at
get_cache_path (lines 204-207) and a store writes the rewritten content to
the file at get_cache_path (lines 204, 233).
-/

/-- Lines 204-207: read the cache entry of a request path: read_text of
the file at get_cache_path applies universal-newline translation to the
stored text. -/
def cacheGet (cache : List Char → Option (List Char)) (path : List Char) :
    Option (List Char) :=
  (cache (get_cache_path path)).map univNewlines

/-- Lines 204 and 233: write a cache entry for a request path.  write_text
under the default newline maps LF to os.linesep, the identity on the POSIX
host, so the stored text is the content unchanged. -/
def cachePut (cache : List Char → Option (List Char)) (path content : List Char) :
    List Char → Option (List Char) :=
  fun q => if q = get_cache_path path then some content else cache q

/-- Universal-newline translation is the identity on carriage-return-free
text. -/
theorem univNewlines_id_of_no_cr : ∀ (c : List Char), '\r' ∉ c →
    univNewlines c = c := by
  intro c
  induction c with
  | nil => intro _; rfl
  | cons x rest ih =>
    intro h
    have hx : x ≠ '\r' := fun he => h (he ▸ List.mem_cons_self _ _)
    have hrest : '\r' ∉ rest := fun he => h (List.mem_cons_of_mem _ he)
    cases rest with
    | nil =>
      rw [show univNewlines [x] = (if x = '\r' then ['\n'] else [x]) from rfl,
        if_neg hx]
    | cons d rest2 =>
      rw [show univNewlines (x :: d :: rest2) =
          (if x = '\r' then
            if d = '\n' then '\n' :: univNewlines rest2
            else '\n' :: univNewlines (d :: rest2)
          else x :: univNewlines (d :: rest2)) from rfl]
      rw [if_neg hx, ih hrest]

/-- C5 counterexample: stored content containing a CRLF pair is not
returned byte for byte: the roundtrip collapses the CRLF to a LF because
read_text performs universal-newline translation while write_text stores
the text unchanged. -/
theorem c5_counterexample :
    cacheGet (cachePut (fun _ => none) (("/a").data) (("a\r\nb").data))
      (("/a").data) = some (("a\nb").data) ∧
    (("a\nb").data) ≠ (("a\r\nb").data) := by
  constructor
  · unfold cacheGet cachePut
    rw [if_pos rfl]
    rfl
  · decide

/-- C5 amended: a cache put of content c under path p followed by a cache
get for the same path p returns the stored content after universal-newline
translation; content free of carriage returns is returned byte for
byte. -/
theorem c5_cache_roundtrip_amended (cache : List Char → Option (List Char))
    (p c : List Char) :
    cacheGet (cachePut cache p c) p = some (univNewlines c) ∧
    ('\r' ∉ c → cacheGet (cachePut cache p c) p = some c) := by
  have h1 : cacheGet (cachePut cache p c) p = some (univNewlines c) := by
    unfold cacheGet cachePut
    rw [if_pos rfl]
    rfl
  exact ⟨h1, fun h => by rw [h1, univNewlines_id_of_no_cr c h]⟩

/-- C5 witness: the roundtrip at a concrete cache, path and
carriage-return-free content. -/
theorem c5_witness :
    cacheGet (cachePut (fun _ => none) (("/a").data) (("xy").data))
      (("/a").data) = some (("xy").data) :=
  (c5_cache_roundtrip_amended (fun _ => none) (("/a").data)
    (("xy").data)).2 (by decide)

/-- C3: the fetch orchestrator returns the Render adapter's result exactly
when it reports status 200 with truthy (present and nonempty) content; in
every other case it returns exactly the Archive adapter's result, and it
never produces a third outcome. -/
theorem c3_fetch_orchestrator (r w : FetchResult) :
    (truthy r.1 = true ∧ r.2 = 200 → fetch_content r w = r) ∧
    ((truthy r.1 = false ∨ r.2 ≠ 200) → fetch_content r w = w) ∧
    (fetch_content r w = r ∨ fetch_content r w = w) := by
  refine ⟨fun h => ?_, fun h => ?_, ?_⟩
  · unfold fetch_content
    rw [if_pos ⟨h.1, h.2⟩]
  · unfold fetch_content
    rw [if_neg ?_]
    rintro ⟨ht, hs⟩
    rcases h with h | h
    · rw [h] at ht; exact Bool.false_ne_true ht
    · exact h hs
  · by_cases h : truthy r.1 = true ∧ r.2 = 200
    · left; unfold fetch_content; rw [if_pos ⟨h.1, h.2⟩]
    · right; unfold fetch_content; rw [if_neg h]

/-- C3 witness: at a concrete successful render result the orchestrator
returns it. -/
theorem c3_witness :
    fetch_content (some (("x").data), 200) (none, 500) =
      (some (("x").data), 200) :=
  (c3_fetch_orchestrator (some (("x").data), 200) (none, 500)).1 ⟨rfl, rfl⟩

/-!
Router claims.
-/

theorem seoHit_status {env : Env} {p : List Char} {r : Resp}
    (h : seoHit env p = some r) : r.status = 200 := by
  unfold seoHit at h
  by_cases hp : p = ("/sitemap.xml").data ∨ p = ("/robots.txt").data
  · rw [if_pos hp] at h
    cases hf : env.files (lstripSlash p) with
    | none => rw [hf] at h; exact absurd h (by simp)
    | some content =>
      rw [hf] at h
      have := Option.some.inj h
      rw [← this]
  · rw [if_neg hp] at h
    exact absurd h (by simp)

/-- C4 witness environment: one static file exists but every read of it
raises (an existing file without read permission). -/
def envReadFail : Env :=
  { files := fun q => if q = ("static_pages/a.html").data then
        some (("x").data)
      else none,
    isDir := fun _ => false,
    cache := fun _ => none,
    allowRemote := false,
    domain := [],
    quibey := fun _ => (none, 500),
    wayback := fun _ => (none, 500),
    readFails := fun _ => true }

/-- C4 counterexample: a static file that exists but whose read raises
drives serve_local_file into its except-branch, which answers
send_error(500): the router does emit a 5xx status. -/
theorem c4_counterexample :
    (do_GET envReadFail (("/a.html").data)).1.status = 500 := by decide

/-- C4 amended: every response the router sends has status 200 or 404,
except the static-file branch: when an existing static file's read (or a
write other than a client disconnect) raises, serve_local_file's
except-branch answers send_error(500).  Any 500 arises exactly from that
branch. -/
theorem c4_router_status_amended (env : Env) (rawPath : List Char) :
    ((do_GET env rawPath).1.status = 200 ∨
      (do_GET env rawPath).1.status = 404) ∨
    ((do_GET env rawPath).1.status = 500 ∧
      ∃ fp content, staticResolve env (stripQuery rawPath) = some (fp, content) ∧
        env.readFails fp = true) := by
  unfold do_GET
  cases hs : seoHit env (stripQuery rawPath) with
  | some r => simp only [hs]; exact Or.inl (Or.inl (seoHit_status hs))
  | none =>
    simp only [hs]
    cases hst : staticResolve env (stripQuery rawPath) with
    | some pr =>
      obtain ⟨fp, content⟩ := pr
      simp only [hst]
      by_cases hrf : env.readFails fp = true
      · have h500 : (serve_local_file env fp content).status = 500 := by
          unfold serve_local_file
          rw [if_pos hrf]
        exact Or.inr ⟨h500, ⟨fp, content, rfl, hrf⟩⟩
      · refine Or.inl (Or.inl ?_)
        show (serve_local_file env fp content).status = 200
        unfold serve_local_file
        rw [if_neg hrf]
    | none =>
      simp only [hst]
      cases hc : env.cache (get_cache_path (stripQuery rawPath)) with
      | some content => simp only [hc]; exact Or.inl (Or.inl rfl)
      | none =>
        simp only [hc]
        by_cases hr : ¬ env.allowRemote
        · rw [if_pos hr]; exact Or.inl (Or.inr rfl)
        · rw [if_neg hr]
          by_cases h1 :
              truthy (fetch_content (env.quibey (stripQuery rawPath))
                  (env.wayback (stripQuery rawPath))).1 = true ∧
                (fetch_content (env.quibey (stripQuery rawPath))
                  (env.wayback (stripQuery rawPath))).2 = 200
          · rw [if_pos h1]; exact Or.inl (Or.inl rfl)
          · rw [if_neg h1]
            by_cases h2 :
                (fetch_content (env.quibey (stripQuery rawPath))
                    (env.wayback (stripQuery rawPath))).2 = 200 ∧
                  ¬ truthy (fetch_content (env.quibey (stripQuery rawPath))
                    (env.wayback (stripQuery rawPath))).1 = true
            · rw [if_pos h2]; exact Or.inl (Or.inr rfl)
            · rw [if_neg h2]; exact Or.inl (Or.inr rfl)

/-- C9: with remote fetching disabled, a GET for a path with no SEO file,
no static file and no cache entry is answered with the fixed 404
unavailable page, and the cache is unchanged. -/
theorem c9_static_only (env : Env) (rawPath : List Char)
    (hseo : seoHit env (stripQuery rawPath) = none)
    (hstatic : staticResolve env (stripQuery rawPath) = none)
    (hcache : env.cache (get_cache_path (stripQuery rawPath)) = none)
    (hremote : env.allowRemote = false) :
    do_GET env rawPath =
      (send_html_response 404 (unavailablePage (stripQuery rawPath)),
        env.cache) := by
  unfold do_GET
  cases hs : seoHit env (stripQuery rawPath) with
  | some r => exact absurd (hs.symm.trans hseo) (by simp)
  | none =>
    simp only [hs]
    cases hst : staticResolve env (stripQuery rawPath) with
    | some pr => exact absurd (hst.symm.trans hstatic) (by simp)
    | none =>
      simp only [hst]
      cases hc : env.cache (get_cache_path (stripQuery rawPath)) with
      | some content => exact absurd (hc.symm.trans hcache) (by simp)
      | none =>
        simp only [hc]
        rw [hremote]
        rw [if_pos (by simp)]

/-- C9 witness environment: nothing on disk, nothing cached, static-only
mode. -/
def envStaticOnly : Env :=
  { files := fun _ => none,
    isDir := fun _ => false,
    cache := fun _ => none,
    allowRemote := false,
    domain := [],
    quibey := fun _ => (none, 500),
    wayback := fun _ => (none, 500),
    readFails := fun _ => false }

/-- C9 witness: the static-only scenario at a concrete environment and
path. -/
theorem c9_witness :
    do_GET envStaticOnly (("/zz").data) =
      (send_html_response 404 (unavailablePage (("/zz").data)),
        envStaticOnly.cache) := by
  have h := c9_static_only envStaticOnly (("/zz").data) (by rfl) (by rfl)
    (by rfl) (by rfl)
  exact h

/-!
C1: idempotency of the rewriter.
-/

set_option maxRecDepth 100000 in
/-- C1 counterexample: on markup with an opening head tag the rewriter is
not idempotent - the second application removes the canonical tag it
inserted (leaving the newline behind) and re-inserts it, so the output
gains an extra newline. -/
theorem c1_counterexample :
    fix_content
        (fix_content (("<head>x").data) (("/a").data) (("zz").data))
        (("/a").data) (("zz").data) ≠
      fix_content (("<head>x").data) (("/a").data) (("zz").data) := by
  decide

/-- C1 amended: the rewriter is idempotent on markup in which every rule
finds no match, in particular on markup containing none of the characters
<, / and : (every regex of the chain requires one of them, case folding
included); it is the identity there. -/
theorem c1_idempotent_on_inert (m p d : List Char)
    (h1 : '<' ∉ m) (h2 : '/' ∉ m) (h3 : ':' ∉ m) :
    fix_content (fix_content m p d) p d = fix_content m p d := by
  have b2 : blocked (RAtom.lit '<') m := h1
  have b1 : blocked (RAtom.lit '/') m := h2
  have bci1 : blocked (RAtom.litCI '/') m :=
    blocked_litCI_nonletter (by decide) h2
  have bci2 : blocked (RAtom.litCI '<') m :=
    blocked_litCI_nonletter (by decide) h1
  have e1 : stripWayback m = m := by
    unfold stripWayback
    rw [subAll_id_of_blocked (RAtom.lit '/')
        (by decide : RAtom.lit '/' ∈ pArchiveId) m b1,
      subAll_id_of_blocked (RAtom.lit '/')
        (by decide : RAtom.lit '/' ∈ pArchive) m b1]
  have e2 : rewriteHosts m = m := by
    unfold rewriteHosts
    rw [subAll_id_of_blocked (RAtom.lit '/')
        (by decide : RAtom.lit '/' ∈ pQuibeySlash) m b1,
      subAll_id_of_blocked (RAtom.lit '/')
        (by decide : RAtom.lit '/' ∈ pQuibeyQuote) m b1,
      subAll_id_of_blocked (RAtom.lit '/')
        (by decide : RAtom.lit '/' ∈ pHeroSlash) m b1,
      subAll_id_of_blocked (RAtom.lit '/')
        (by decide : RAtom.lit '/' ∈ pHeroQuote) m b1,
      subAll_id_of_blocked (RAtom.lit '/')
        (by decide : RAtom.lit '/' ∈ pSSHeroSlash) m b1,
      subAll_id_of_blocked (RAtom.lit '/')
        (by decide : RAtom.lit '/' ∈ pSSHeroQuote) m b1,
      subAll_id_of_blocked (RAtom.lit '/')
        (by decide : RAtom.lit '/' ∈ pSSQuibeySlash) m b1,
      subAll_id_of_blocked (RAtom.lit '/')
        (by decide : RAtom.lit '/' ∈ pSSQuibeyQuote) m b1]
  have e3 : fixCdn m = m := by
    unfold fixCdn
    rw [subAll_id_of_blocked (RAtom.litCI '/')
        (by decide : RAtom.litCI '/' ∈ pCdn2) m bci1,
      subAll_id_of_blocked (RAtom.litCI '/')
        (by decide : RAtom.litCI '/' ∈ pCdnHero) m bci1,
      subAll_id_of_blocked (RAtom.litCI '/')
        (by decide : RAtom.litCI '/' ∈ pSSCdn2) m bci1,
      subAll_id_of_blocked (RAtom.litCI '/')
        (by decide : RAtom.litCI '/' ∈ pSSCdnHero) m bci1]
  have e4 : canonStage (normPath p) d m = m := by
    unfold canonStage
    rw [subAll_id_of_blocked (RAtom.litCI '<')
        (by decide : RAtom.litCI '<' ∈ pCanon) m bci2,
      searchExists_false_of_blocked (RAtom.lit '<')
        (by decide : RAtom.lit '<' ∈ pHead) m b2]
    simp
  have e5 : stripBundles m = m := by
    unfold stripBundles
    rw [subAll_id_of_blocked (RAtom.lit '<')
        (by decide : RAtom.lit '<' ∈ pMain) m b2,
      subAll_id_of_blocked (RAtom.lit '<')
        (by decide : RAtom.lit '<' ∈ pChunk) m b2]
  have e6 : stripReactBoot m = m := by
    unfold stripReactBoot
    rw [subAll_id_of_blocked (RAtom.lit '<')
        (by decide : RAtom.lit '<' ∈ pReact) m b2]
  have e7 : fixPointer m = m := by
    unfold fixPointer
    rw [replAll_id_of_mem
        (show ':' ∈ (("pointer-events: none").data) by decide) m h3,
      replAll_id_of_mem
        (show ':' ∈ (("pointer-events:none").data) by decide) m h3]
  have e8 : injectCss m = m := by
    unfold injectCss
    rw [contains_false_of_mem (show '<' ∈ (("</head>").data) by decide) h1]
    simp
  have e9 : spaFallback m = m := by
    unfold spaFallback
    rw [contains_false_of_mem (show '<' ∈ marker1 by decide) h1,
      contains_false_of_mem (show '<' ∈ marker2 by decide) h1]
    simp
  have hfix : fix_content m p d = m := by
    unfold fix_content preFallback
    rw [e1, e2, e3, e4, e5, e6, e7, e8, e9]
  rw [hfix, hfix]

/-- C1 witness: idempotency at concrete inert markup. -/
theorem c1_witness :
    fix_content
        (fix_content (("abc").data) (("/").data) (("zz").data))
        (("/").data) (("zz").data) =
      fix_content (("abc").data) (("/").data) (("zz").data) :=
  c1_idempotent_on_inert (("abc").data) (("/").data) (("zz").data)
    (by decide) (by decide) (by decide)

/-!
C7 and the context machinery shared by the remaining rewriter claims.  The
amended theorems quantify over an arbitrary context drawn from an inert
alphabet: characters that no rule of the chain can consume.
-/

/-- An inert context alphabet: none of these characters occurs in any
required literal of the rewriter's patterns (case folding included). -/
def SAFE : List Char := ("xyz0123456789 ").data

theorem not_mem_of_safe {c : Char} {m : List Char}
    (hm : ∀ x ∈ m, x ∈ SAFE) (hc : c ∉ SAFE) : c ∉ m :=
  fun h => hc (hm c h)

theorem not_mem_append {c : Char} {a b : List Char}
    (ha : c ∉ a) (hb : c ∉ b) : c ∉ a ++ b :=
  fun h => (List.mem_append.mp h).elim (fun h1 => ha h1) (fun h1 => hb h1)

theorem blocked_of_safe (a : RAtom) {m : List Char}
    (hm : ∀ x ∈ m, x ∈ SAFE) (hsafe : blocked a SAFE) : blocked a m :=
  blocked_of_sub a hm hsafe

theorem blocked_ctx (a : RAtom) {pre post tag : List Char}
    (hpre : ∀ x ∈ pre, x ∈ SAFE) (hpost : ∀ x ∈ post, x ∈ SAFE)
    (hsafe : blocked a SAFE) (htag : blocked a tag) :
    blocked a (pre ++ (tag ++ post)) :=
  blocked_append (blocked_of_safe a hpre hsafe)
    (blocked_append htag (blocked_of_safe a hpost hsafe))

theorem blocked_ctx2 (a : RAtom) {pre post : List Char}
    (hpre : ∀ x ∈ pre, x ∈ SAFE) (hpost : ∀ x ∈ post, x ∈ SAFE)
    (hsafe : blocked a SAFE) : blocked a (pre ++ post) :=
  blocked_append (blocked_of_safe a hpre hsafe)
    (blocked_of_safe a hpost hsafe)

theorem blocksHead_of_safe {a : RAtom} (hall : ∀ x ∈ SAFE, blocksHead a x)
    {m : List Char} (hm : ∀ x ∈ m, x ∈ SAFE) : ∀ x ∈ m, blocksHead a x :=
  fun x hx => hall x (hm x hx)

theorem subAll_skip2 {pat : List RAtom} {repl : List Char} {a : RAtom}
    {rest : List RAtom} (hpat : pat = a :: rest) (pre s : List Char)
    (h : ∀ x ∈ pre, blocksHead a x) :
    subAll pat repl (pre ++ s) = pre ++ subAll pat repl s := by
  subst hpat; exact subAll_append_skip pre s h

theorem countMatches_skip2 {pat : List RAtom} {a : RAtom} {rest : List RAtom}
    (hpat : pat = a :: rest) (pre s : List Char)
    (h : ∀ x ∈ pre, blocksHead a x) :
    countMatches pat (pre ++ s) = countMatches pat s := by
  subst hpat; exact countMatches_append_skip pre s h

theorem searchExists_skip2 {pat : List RAtom} {a : RAtom} {rest : List RAtom}
    (hpat : pat = a :: rest) (pre s : List Char)
    (h : ∀ x ∈ pre, blocksHead a x) :
    searchExists pat (pre ++ s) = searchExists pat s := by
  subst hpat; exact searchExists_append_skip pre s h

theorem subFirst_skip2 {pat : List RAtom} {f : List Char → List Char}
    {a : RAtom} {rest : List RAtom} (hpat : pat = a :: rest)
    (pre s : List Char) (h : ∀ x ∈ pre, blocksHead a x) :
    subFirst pat f (pre ++ s) = pre ++ subFirst pat f s := by
  subst hpat; exact subFirst_append_skip pre s h

theorem subAll_match_ne {pat : List RAtom} {repl s : List Char} {n : Nat}
    (hm : matchAtoms pat s = some n) (hn : 0 < n) (hne : s ≠ []) :
    subAll pat repl s = repl ++ subAll pat repl (s.drop n) := by
  cases s with
  | nil => exact absurd rfl hne
  | cons c s' => exact subAll_cons_match hm hn

theorem countMatches_match_ne {pat : List RAtom} {s : List Char} {n : Nat}
    (hm : matchAtoms pat s = some n) (hn : 0 < n) (hne : s ≠ []) :
    countMatches pat s = 1 + countMatches pat (s.drop n) := by
  cases s with
  | nil => exact absurd rfl hne
  | cons c s' => exact countMatches_cons_match hm hn

theorem subFirst_match_ne {pat : List RAtom} {f : List Char → List Char}
    {s : List Char} {n : Nat} (hm : matchAtoms pat s = some n) (hne : s ≠ []) :
    subFirst pat f s = f (s.take n) ++ s.drop n := by
  cases s with
  | nil => exact absurd rfl hne
  | cons c s' => exact subFirst_cons_match hm

/-- Reversed startsL: does t occur at the end of s? -/
def endsL (t s : List Char) : Bool := startsL t.reverse s.reverse

/-- Modelled from the spec: a src string matching the client-bundle naming
convention, reading the spec's main.*.js and *chunk*.js as glob patterns
(starts with main. and ends with .js, or contains chunk and ends with
.js).  This is the spec-side definition used to compare against the
source's regexes. -/
def specBundleSrc (src : List Char) : Bool :=
  (startsL (("main.").data) src && endsL ((".js").data) src) ||
    (containsSubstr (("chunk").data) src && endsL ((".js").data) src)

set_option maxRecDepth 400000 in
/-- C7 counterexample: the script tag with src 2.chunk.js matches the
client-bundle naming convention of the spec, yet the rewriter leaves the
tag untouched - the source regex demands a dot-separated segment between
chunk. and .js. -/
theorem c7_counterexample :
    specBundleSrc (("2.chunk.js").data) = true ∧
    fix_content (("<script src=\"2.chunk.js\"></script>").data)
        (("/a").data) (("zz").data) =
      ("<script src=\"2.chunk.js\"></script>").data := by
  exact ⟨by decide, by decide⟩

/-- The concrete main-bundle script tag used by the amended C7 theorem. -/
def mainBundleTag : List Char :=
  ("<script src=\"main.abc123.js\"></script>").data

set_option maxRecDepth 400000 in
/-- C7 amended: the rewriter removes script tags in the exact double-quoted
form matched by its regexes (src containing main.<x>.js or chunk.<x>.js,
tag closed immediately by ></script>).  For any document made of an inert
prefix followed by a main-bundle tag, the tag is removed entirely and
nothing else changes; tags that merely match the spec's looser glob (e.g.
src 2.chunk.js) are not removed. -/
theorem c7_bundle_removal_amended (pre p d : List Char)
    (hpre : ∀ x ∈ pre, x ∈ SAFE) :
    fix_content (pre ++ mainBundleTag) p d = pre := by
  have hctx : ∀ (a : RAtom), blocked a SAFE → blocked a mainBundleTag →
      blocked a (pre ++ mainBundleTag) :=
    fun a hs ht => blocked_append (blocked_of_safe a hpre hs) ht
  have bw : blocked (RAtom.lit 'w') (pre ++ mainBundleTag) :=
    hctx _ (by decide) (by decide)
  have bq : blocked (RAtom.lit 'q') (pre ++ mainBundleTag) :=
    hctx _ (by decide) (by decide)
  have bh : blocked (RAtom.lit 'h') (pre ++ mainBundleTag) :=
    hctx _ (by decide) (by decide)
  have bhci : blocked (RAtom.litCI 'h') (pre ++ mainBundleTag) :=
    hctx _ (by decide) (by decide)
  have bkci : blocked (RAtom.litCI 'k') (pre ++ mainBundleTag) :=
    hctx _ (by decide) (by decide)
  have bh2 : blocked (RAtom.lit 'h') pre := blocked_of_safe _ hpre (by decide)
  have bw2 : blocked (RAtom.lit 'w') pre := blocked_of_safe _ hpre (by decide)
  have hdash : '-' ∉ pre := not_mem_of_safe hpre (by decide)
  have e1 : stripWayback (pre ++ mainBundleTag) = pre ++ mainBundleTag := by
    unfold stripWayback
    rw [subAll_id_of_blocked (RAtom.lit 'w')
        (by decide : RAtom.lit 'w' ∈ pArchiveId) _ bw,
      subAll_id_of_blocked (RAtom.lit 'w')
        (by decide : RAtom.lit 'w' ∈ pArchive) _ bw]
  have e2 : rewriteHosts (pre ++ mainBundleTag) = pre ++ mainBundleTag := by
    unfold rewriteHosts
    rw [subAll_id_of_blocked (RAtom.lit 'q')
        (by decide : RAtom.lit 'q' ∈ pQuibeySlash) _ bq,
      subAll_id_of_blocked (RAtom.lit 'q')
        (by decide : RAtom.lit 'q' ∈ pQuibeyQuote) _ bq,
      subAll_id_of_blocked (RAtom.lit 'h')
        (by decide : RAtom.lit 'h' ∈ pHeroSlash) _ bh,
      subAll_id_of_blocked (RAtom.lit 'h')
        (by decide : RAtom.lit 'h' ∈ pHeroQuote) _ bh,
      subAll_id_of_blocked (RAtom.lit 'h')
        (by decide : RAtom.lit 'h' ∈ pSSHeroSlash) _ bh,
      subAll_id_of_blocked (RAtom.lit 'h')
        (by decide : RAtom.lit 'h' ∈ pSSHeroQuote) _ bh,
      subAll_id_of_blocked (RAtom.lit 'q')
        (by decide : RAtom.lit 'q' ∈ pSSQuibeySlash) _ bq,
      subAll_id_of_blocked (RAtom.lit 'q')
        (by decide : RAtom.lit 'q' ∈ pSSQuibeyQuote) _ bq]
  have e3 : fixCdn (pre ++ mainBundleTag) = pre ++ mainBundleTag := by
    unfold fixCdn
    rw [subAll_id_of_blocked (RAtom.litCI 'h')
        (by decide : RAtom.litCI 'h' ∈ pCdn2) _ bhci,
      subAll_id_of_blocked (RAtom.litCI 'h')
        (by decide : RAtom.litCI 'h' ∈ pCdnHero) _ bhci,
      subAll_id_of_blocked (RAtom.litCI 'h')
        (by decide : RAtom.litCI 'h' ∈ pSSCdn2) _ bhci,
      subAll_id_of_blocked (RAtom.litCI 'h')
        (by decide : RAtom.litCI 'h' ∈ pSSCdnHero) _ bhci]
  have e4 : canonStage (normPath p) d (pre ++ mainBundleTag) =
      pre ++ mainBundleTag := by
    unfold canonStage
    rw [subAll_id_of_blocked (RAtom.litCI 'k')
        (by decide : RAtom.litCI 'k' ∈ pCanon) _ bkci,
      searchExists_false_of_blocked (RAtom.lit 'h')
        (by decide : RAtom.lit 'h' ∈ pHead) _ bh]
    simp
  have e5 : stripBundles (pre ++ mainBundleTag) = pre := by
    unfold stripBundles
    have hmain : subAll pMain [] (pre ++ mainBundleTag) = pre := by
      rw [subAll_skip2 (show pMain = RAtom.lit '<' :: pMain.tail by decide)
          pre _ (blocksHead_of_safe (by decide) hpre)]
      rw [show subAll pMain [] mainBundleTag = [] from by decide]
      exact List.append_nil pre
    rw [hmain,
      subAll_id_of_blocked (RAtom.lit 'h')
        (by decide : RAtom.lit 'h' ∈ pChunk) _ bh2]
  have e6 : stripReactBoot pre = pre := by
    unfold stripReactBoot
    rw [subAll_id_of_blocked (RAtom.lit 'w')
        (by decide : RAtom.lit 'w' ∈ pReact) _ bw2]
  have e7 : fixPointer pre = pre := by
    unfold fixPointer
    rw [replAll_id_of_mem
        (show '-' ∈ (("pointer-events: none").data) by decide) _ hdash,
      replAll_id_of_mem
        (show '-' ∈ (("pointer-events:none").data) by decide) _ hdash]
  have e8 : injectCss pre = pre := by
    unfold injectCss
    rw [contains_false_of_mem (show 'h' ∈ (("</head>").data) by decide)
      (bh2 : 'h' ∉ pre)]
    simp
  have e9 : spaFallback pre = pre := by
    unfold spaFallback
    have hv : 'v' ∉ pre := not_mem_of_safe hpre (by decide)
    rw [contains_false_of_mem (show 'v' ∈ marker1 by decide) hv,
      contains_false_of_mem (show 'v' ∈ marker2 by decide) hv]
    simp
  unfold fix_content preFallback
  rw [e1, e2, e3, e4, e5, e6, e7, e8, e9]

/-- C7 witness: the main-bundle tag is removed at a concrete context. -/
theorem c7_witness :
    fix_content ((("xy").data) ++ mainBundleTag) (("/a").data)
        (("zz").data) = ("xy").data :=
  c7_bundle_removal_amended (("xy").data) (("/a").data) (("zz").data)
    (by decide)

/-!
C10: markup without an opening head tag.
-/

set_option maxRecDepth 400000 in
/-- C10 counterexample: without a head tag the canonical-removal pass can
splice a new canonical tag together from the text surrounding the removed
match (re.sub resumes after the match and never rescans), so a canonical
tag can survive in the output. -/
theorem c10_counterexample :
    searchExists pHead
        (("<li<link rel=\"canonical\">nk rel=\"canonical\">").data) = false ∧
    searchExists pCanon
        (fix_content (("<li<link rel=\"canonical\">nk rel=\"canonical\">").data)
          (("/a").data) (("zz").data)) = true := by
  exact ⟨by decide, by decide⟩

/-- The concrete canonical tag used by the amended C10 theorem. -/
def canonTag0 : List Char := ("<link rel=\"canonical\" href=\"zz\" />").data

set_option maxRecDepth 400000 in
/-- C10 amended: without an opening head tag the rewriter removes one pass
of non-overlapping canonical matches and inserts nothing; for any document
made of an inert prefix followed by a canonical tag, the tag is removed
entirely and no canonical tag remains, though splicing contexts (see the
counterexample) can defeat this in general. -/
theorem c10_no_canonical_amended (pre p d : List Char)
    (hpre : ∀ x ∈ pre, x ∈ SAFE) :
    fix_content (pre ++ canonTag0) p d = pre ∧
    searchExists pCanon pre = false := by
  have hctx : ∀ (a : RAtom), blocked a SAFE → blocked a canonTag0 →
      blocked a (pre ++ canonTag0) :=
    fun a hs ht => blocked_append (blocked_of_safe a hpre hs) ht
  have bw : blocked (RAtom.lit 'w') (pre ++ canonTag0) :=
    hctx _ (by decide) (by decide)
  have bq : blocked (RAtom.lit 'q') (pre ++ canonTag0) :=
    hctx _ (by decide) (by decide)
  have bg : blocked (RAtom.lit 'g') (pre ++ canonTag0) :=
    hctx _ (by decide) (by decide)
  have bmci : blocked (RAtom.litCI 'm') (pre ++ canonTag0) :=
    hctx _ (by decide) (by decide)
  have bgci : blocked (RAtom.litCI 'g') (pre ++ canonTag0) :=
    hctx _ (by decide) (by decide)
  have bh2 : blocked (RAtom.lit 'h') pre := blocked_of_safe _ hpre (by decide)
  have bw2 : blocked (RAtom.lit 'w') pre := blocked_of_safe _ hpre (by decide)
  have blt2 : blocked (RAtom.lit '<') pre := blocked_of_safe _ hpre (by decide)
  have bkci2 : blocked (RAtom.litCI 'k') pre :=
    blocked_of_safe _ hpre (by decide)
  have hdash : '-' ∉ pre := not_mem_of_safe hpre (by decide)
  have e1 : stripWayback (pre ++ canonTag0) = pre ++ canonTag0 := by
    unfold stripWayback
    rw [subAll_id_of_blocked (RAtom.lit 'w')
        (by decide : RAtom.lit 'w' ∈ pArchiveId) _ bw,
      subAll_id_of_blocked (RAtom.lit 'w')
        (by decide : RAtom.lit 'w' ∈ pArchive) _ bw]
  have e2 : rewriteHosts (pre ++ canonTag0) = pre ++ canonTag0 := by
    unfold rewriteHosts
    rw [subAll_id_of_blocked (RAtom.lit 'q')
        (by decide : RAtom.lit 'q' ∈ pQuibeySlash) _ bq,
      subAll_id_of_blocked (RAtom.lit 'q')
        (by decide : RAtom.lit 'q' ∈ pQuibeyQuote) _ bq,
      subAll_id_of_blocked (RAtom.lit 'g')
        (by decide : RAtom.lit 'g' ∈ pHeroSlash) _ bg,
      subAll_id_of_blocked (RAtom.lit 'g')
        (by decide : RAtom.lit 'g' ∈ pHeroQuote) _ bg,
      subAll_id_of_blocked (RAtom.lit 'g')
        (by decide : RAtom.lit 'g' ∈ pSSHeroSlash) _ bg,
      subAll_id_of_blocked (RAtom.lit 'g')
        (by decide : RAtom.lit 'g' ∈ pSSHeroQuote) _ bg,
      subAll_id_of_blocked (RAtom.lit 'q')
        (by decide : RAtom.lit 'q' ∈ pSSQuibeySlash) _ bq,
      subAll_id_of_blocked (RAtom.lit 'q')
        (by decide : RAtom.lit 'q' ∈ pSSQuibeyQuote) _ bq]
  have e3 : fixCdn (pre ++ canonTag0) = pre ++ canonTag0 := by
    unfold fixCdn
    rw [subAll_id_of_blocked (RAtom.litCI 'm')
        (by decide : RAtom.litCI 'm' ∈ pCdn2) _ bmci,
      subAll_id_of_blocked (RAtom.litCI 'g')
        (by decide : RAtom.litCI 'g' ∈ pCdnHero) _ bgci,
      subAll_id_of_blocked (RAtom.litCI 'm')
        (by decide : RAtom.litCI 'm' ∈ pSSCdn2) _ bmci,
      subAll_id_of_blocked (RAtom.litCI 'g')
        (by decide : RAtom.litCI 'g' ∈ pSSCdnHero) _ bgci]
  have e4 : canonStage (normPath p) d (pre ++ canonTag0) = pre := by
    unfold canonStage
    have hrem : subAll pCanon [] (pre ++ canonTag0) = pre := by
      rw [subAll_skip2 (show pCanon = RAtom.litCI '<' :: pCanon.tail by decide)
          pre _ (blocksHead_of_safe (by decide) hpre)]
      rw [show subAll pCanon [] canonTag0 = [] from by decide]
      exact List.append_nil pre
    rw [hrem,
      searchExists_false_of_blocked (RAtom.lit 'h')
        (by decide : RAtom.lit 'h' ∈ pHead) _ bh2]
    simp
  have e5 : stripBundles pre = pre := by
    unfold stripBundles
    rw [subAll_id_of_blocked (RAtom.lit '<')
        (by decide : RAtom.lit '<' ∈ pMain) _ blt2,
      subAll_id_of_blocked (RAtom.lit '<')
        (by decide : RAtom.lit '<' ∈ pChunk) _ blt2]
  have e6 : stripReactBoot pre = pre := by
    unfold stripReactBoot
    rw [subAll_id_of_blocked (RAtom.lit 'w')
        (by decide : RAtom.lit 'w' ∈ pReact) _ bw2]
  have e7 : fixPointer pre = pre := by
    unfold fixPointer
    rw [replAll_id_of_mem
        (show '-' ∈ (("pointer-events: none").data) by decide) _ hdash,
      replAll_id_of_mem
        (show '-' ∈ (("pointer-events:none").data) by decide) _ hdash]
  have e8 : injectCss pre = pre := by
    unfold injectCss
    rw [contains_false_of_mem (show 'h' ∈ (("</head>").data) by decide)
      (bh2 : 'h' ∉ pre)]
    simp
  have e9 : spaFallback pre = pre := by
    unfold spaFallback
    have hv : 'v' ∉ pre := not_mem_of_safe hpre (by decide)
    rw [contains_false_of_mem (show 'v' ∈ marker1 by decide) hv,
      contains_false_of_mem (show 'v' ∈ marker2 by decide) hv]
    simp
  constructor
  · unfold fix_content preFallback
    rw [e1, e2, e3, e4, e5, e6, e7, e8, e9]
  · exact searchExists_false_of_blocked (RAtom.litCI 'k')
      (by decide : RAtom.litCI 'k' ∈ pCanon) _ bkci2

/-- C10 witness: a canonical tag is removed with none remaining, at a
concrete context. -/
theorem c10_witness :
    fix_content ((("xy").data) ++ canonTag0) (("/a").data)
        (("zz").data) = ("xy").data ∧
    searchExists pCanon (("xy").data) = false :=
  c10_no_canonical_amended (("xy").data) (("/a").data) (("zz").data)
    (by decide)

/-!
C6: the SPA-shell fallback rule.
-/

/-- Behaviour of the fallback rule on any content: when a root-container
marker is present the output contains the fallback block immediately
inside the opening of a container; when neither marker is present the
rule leaves the content unchanged. -/
theorem spaFallback_spec (c : List Char) :
    ((containsSubstr marker1 c = true ∨ containsSubstr marker2 c = true) →
      ∃ a b,
        spaFallback c =
            a ++ (divOpen1 ++ fallbackFor c ++ ("</div>").data) ++ b ∨
        spaFallback c =
            a ++ (divOpen2 ++ fallbackFor c ++ ("</div>").data) ++ b) ∧
    (containsSubstr marker1 c = false → containsSubstr marker2 c = false →
      spaFallback c = c) := by
  constructor
  · intro hmk
    have hcond : (containsSubstr marker1 c || containsSubstr marker2 c) = true := by
      rcases hmk with h | h <;> simp [h]
    have hout : spaFallback c =
        replAll marker2 (divOpen2 ++ fallbackFor c ++ ("</div>").data)
          (replAll marker1 (divOpen1 ++ fallbackFor c ++ ("</div>").data) c) := by
      unfold spaFallback
      rw [if_pos hcond]
    by_cases h2 : containsSubstr marker2
        (replAll marker1 (divOpen1 ++ fallbackFor c ++ ("</div>").data) c) = true
    · obtain ⟨a, b, hab⟩ :=
        replAll_decomp (r := divOpen2 ++ fallbackFor c ++ ("</div>").data)
          (by decide : marker2 ≠ []) _ h2
      exact ⟨a, b, Or.inr (hout.trans hab)⟩
    · have hrepl2 :
          replAll marker2 (divOpen2 ++ fallbackFor c ++ ("</div>").data)
            (replAll marker1 (divOpen1 ++ fallbackFor c ++ ("</div>").data) c) =
          replAll marker1 (divOpen1 ++ fallbackFor c ++ ("</div>").data) c :=
        replAll_id_of_not_contains _ (Bool.eq_false_iff.mpr h2)
      by_cases hm1 : containsSubstr marker1 c = true
      · obtain ⟨a, b, hab⟩ :=
          replAll_decomp (r := divOpen1 ++ fallbackFor c ++ ("</div>").data)
            (by decide : marker1 ≠ []) c hm1
        exact ⟨a, b, Or.inl ((hout.trans hrepl2).trans hab)⟩
      · have hid : replAll marker1
            (divOpen1 ++ fallbackFor c ++ ("</div>").data) c = c :=
          replAll_id_of_not_contains c (Bool.eq_false_iff.mpr hm1)
        rw [hid] at h2
        rcases hmk with h | h
        · exact absurd h hm1
        · exact absurd h h2
  · intro hf1 hf2
    unfold spaFallback
    rw [if_neg (by simp [hf1, hf2])]

/-- C6 amended: the fallback rule keys on the content as it stands after
rules 1-8, not on the raw input markup.  If that partially-rewritten
content contains a root-container marker, the rewriter's output contains
the fallback block (built from that content's title and description)
inside a container opening; if it contains neither marker, the rule
leaves it unchanged. -/
theorem c6_fallback_amended (m p d : List Char) :
    ((containsSubstr marker1 (preFallback m p d) = true ∨
        containsSubstr marker2 (preFallback m p d) = true) →
      ∃ a b,
        fix_content m p d =
            a ++ (divOpen1 ++ fallbackFor (preFallback m p d) ++
              ("</div>").data) ++ b ∨
        fix_content m p d =
            a ++ (divOpen2 ++ fallbackFor (preFallback m p d) ++
              ("</div>").data) ++ b) ∧
    (containsSubstr marker1 (preFallback m p d) = false →
      containsSubstr marker2 (preFallback m p d) = false →
      fix_content m p d = preFallback m p d) := by
  have h := spaFallback_spec (preFallback m p d)
  exact h

set_option maxRecDepth 400000 in
/-- C6 counterexample: markup whose raw input contains the empty plain
root container, wrapped in an inline React bootstrap script: rule 6
deletes the whole script including the container before rule 9 runs, so
the output is empty and contains no fallback block, although the input
contained the marker. -/
theorem c6_counterexample :
    containsSubstr marker2
        (("<script>window.__REACT<div id=\"root\"></div></script>").data) =
      true ∧
    fix_content
        (("<script>window.__REACT<div id=\"root\"></div></script>").data)
        (("/a").data) (("zz").data) = [] := by
  exact ⟨by decide, by decide⟩

set_option maxRecDepth 400000 in
/-- C6 witness: at concrete marker-free markup the fallback rule leaves
the partially-rewritten content unchanged. -/
theorem c6_witness :
    fix_content (("zz").data) (("/a").data) (("zz").data) =
      preFallback (("zz").data) (("/a").data) (("zz").data) :=
  (c6_fallback_amended (("zz").data) (("/a").data) (("zz").data)).2
    (by decide) (by decide)

/-!
C2: exactly one canonical tag.
-/

/-- findSome? distributes over append as an orElse. -/
theorem findSome?_app (f : Nat → Option Nat) (l1 l2 : List Nat) :
    (l1 ++ l2).findSome? f = ((l1.findSome? f).orElse (fun _ => l2.findSome? f)) := by
  induction l1 with
  | nil => simp [List.findSome?]
  | cons a t ih =>
    show List.findSome? f (a :: (t ++ l2)) = _
    cases h : f a <;> simp [List.findSome?, h, ih]

/-- findSome? on a two-element list whose first element already succeeds. -/
theorem findSome?_pair (f : Nat → Option Nat) (a b : Nat) (v : Nat)
    (h : f a = some v) : ([a, b].findSome? f) = some v := by
  simp [List.findSome?, h]

/-- Every element of countup n is at most n. -/
theorem mem_countup_le : ∀ (n j : Nat), j ∈ countup n → j ≤ n := by
  intro n
  induction n with
  | zero =>
    intro j h
    rw [show countup 0 = [0] from rfl] at h
    simp at h
    omega
  | succ n ih =>
    intro j h
    rw [show countup (n + 1) = countup n ++ [n + 1] from rfl] at h
    rcases List.mem_append.mp h with h1 | h1
    · have := ih j h1; omega
    · simp at h1; omega

/-- A greedy countdown search in which every candidate above k0 fails
reduces to the countdown from k0. -/
theorem countdown_select : ∀ (n k0 : Nat) (f : Nat → Option Nat),
    k0 ≤ n → (∀ j, k0 < j → j ≤ n → f j = none) →
    (countdown n).findSome? f = (countdown k0).findSome? f := by
  intro n
  induction n with
  | zero =>
    intro k0 f h0 _
    rw [Nat.le_zero.mp h0]
  | succ n ih =>
    intro k0 f h0 hnone
    by_cases hk : k0 = n + 1
    · rw [hk]
    · have h1 : k0 ≤ n := by omega
      have hfn : f (n + 1) = none := hnone (n + 1) (by omega) (by omega)
      have hstep : (countdown (n + 1)).findSome? f = (countdown n).findSome? f := by
        show ((n + 1) :: countdown n).findSome? f = _
        simp [List.findSome?, hfn]
      rw [hstep]
      exact ih k0 f h1 (fun j hj1 hj2 => hnone j hj1 (by omega))

/-- A lazy countup search whose first success is at k0 ≤ n returns it. -/
theorem countup_select : ∀ (n k0 : Nat) (f : Nat → Option Nat) (v : Nat),
    k0 ≤ n → (∀ j, j < k0 → f j = none) → f k0 = some v →
    (countup n).findSome? f = some v := by
  intro n
  induction n with
  | zero =>
    intro k0 f v h0 _ hk
    have hz : k0 = 0 := by omega
    subst hz
    simp [countup, List.findSome?, hk]
  | succ n ih =>
    intro k0 f v h0 hnone hk
    rw [show countup (n + 1) = countup n ++ [n + 1] from rfl, findSome?_app]
    by_cases hkn : k0 ≤ n
    · rw [ih k0 f v hkn hnone hk]
      rfl
    · have hke : k0 = n + 1 := by omega
      subst hke
      have hnil : (countup n).findSome? f = none :=
        List.findSome?_eq_none_iff.mpr
          (fun a ha => hnone a (by have := mem_countup_le n a ha; omega))
      rw [hnil]
      simp [List.findSome?, hk, Option.orElse]

/-- takeCount over a prefix made entirely of class characters. -/
theorem takeCount_all_append (cc : CClass) : ∀ (u v : List Char),
    (∀ x ∈ u, cc.test x = true) →
    takeCount cc (u ++ v) = u.length + takeCount cc v := by
  intro u
  induction u with
  | nil => intro v _; simp
  | cons c t ih =>
    intro v h
    show takeCount cc (c :: (t ++ v)) = _
    rw [show takeCount cc (c :: (t ++ v)) =
        if cc.test c then takeCount cc (t ++ v) + 1 else 0 from rfl]
    rw [if_pos (h c (List.mem_cons_self _ _)),
      ih v (fun x hx => h x (List.mem_cons_of_mem _ hx)), List.length_cons]
    omega

/-- The suffix pattern /?> of the canonical regex fails at every position of
a nonempty gt-free run followed by the closing /," followed by ">". -/
theorem opt_gt_none : ∀ (w : List Char), w ≠ [] → '>' ∉ w →
    matchAtoms [RAtom.opt '/', RAtom.lit '>'] (w ++ ('/' :: ('>' :: []))) = none := by
  intro w hne hgt
  cases w with
  | nil => exact absurd rfl hne
  | cons x t =>
    rw [List.cons_append]
    have hx : x ≠ '>' := fun h => hgt (h ▸ List.mem_cons_self _ _)
    have hinner : matchAtoms [RAtom.lit '>'] (t ++ ('/' :: ('>' :: []))) = none := by
      cases t with
      | nil => decide
      | cons y t' =>
        rw [List.cons_append]
        have hy : y ≠ '>' := fun h =>
          hgt (h ▸ List.mem_cons_of_mem _ (List.mem_cons_self _ _))
        rw [show matchAtoms [RAtom.lit '>'] (y :: (t' ++ ('/' :: ('>' :: [])))) =
            (if y = '>' then
              (matchAtoms ([] : List RAtom) (t' ++ ('/' :: ('>' :: [])))).map (· + 1)
            else none) from rfl]
        rw [if_neg hy]
    have houter : matchAtoms [RAtom.lit '>'] (x :: (t ++ ('/' :: ('>' :: [])))) = none := by
      rw [show matchAtoms [RAtom.lit '>'] (x :: (t ++ ('/' :: ('>' :: [])))) =
          (if x = '>' then
            (matchAtoms ([] : List RAtom) (t ++ ('/' :: ('>' :: [])))).map (· + 1)
          else none) from rfl]
      rw [if_neg hx]
    rw [show matchAtoms [RAtom.opt '/', RAtom.lit '>'] (x :: (t ++ ('/' :: ('>' :: [])))) =
        (if x = '/' then
          match matchAtoms [RAtom.lit '>'] (t ++ ('/' :: ('>' :: []))) with
          | some n => some (n + 1)
          | none => matchAtoms [RAtom.lit '>'] (x :: (t ++ ('/' :: ('>' :: []))))
        else matchAtoms [RAtom.lit '>'] (x :: (t ++ ('/' :: ('>' :: []))))) from rfl]
    by_cases hxs : x = '/'
    · rw [if_pos hxs, hinner]
      exact houter
    · rw [if_neg hxs]
      exact houter

/-- The lazy tail of the canonical regex on a gt-free run u followed by
"/>": the lazy star stops right before the slash, the optional slash is
consumed, and the final > matches. -/
theorem match_lazy_slash_gt (u : List Char) (hu : '>' ∉ u) :
    matchAtoms [RAtom.lazyStar CClass.notGt, RAtom.opt '/', RAtom.lit '>']
      (u ++ ('/' :: ('>' :: []))) = some (u.length + 2) := by
  have hnotgt : ∀ x ∈ u, CClass.test CClass.notGt x = true :=
    fun x hx => decide_eq_true (show x ≠ '>' from fun h => hu (h ▸ hx))
  have hrun : takeCount CClass.notGt (u ++ ('/' :: ('>' :: []))) = u.length + 1 := by
    rw [takeCount_all_append CClass.notGt u _ hnotgt]
    rw [show takeCount CClass.notGt ('/' :: ('>' :: [])) = 1 from rfl]
  rw [show matchAtoms [RAtom.lazyStar CClass.notGt, RAtom.opt '/', RAtom.lit '>']
        (u ++ ('/' :: ('>' :: []))) =
      (countup (takeCount CClass.notGt (u ++ ('/' :: ('>' :: []))))).findSome?
        (fun k => (matchAtoms [RAtom.opt '/', RAtom.lit '>']
          ((u ++ ('/' :: ('>' :: []))).drop k)).map (· + k)) from rfl]
  rw [hrun]
  apply countup_select (u.length + 1) u.length _ (u.length + 2) (by omega)
  · intro j hj
    show (matchAtoms [RAtom.opt '/', RAtom.lit '>']
      ((u ++ ('/' :: ('>' :: []))).drop j)).map (· + j) = none
    rw [List.drop_append_of_le_length (by omega)]
    rw [opt_gt_none (u.drop j)
      (by
        intro h
        have h2 := congrArg List.length h
        rw [List.length_drop] at h2
        simp at h2
        omega)
      (fun h => hu (List.mem_of_mem_drop h))]
    rfl
  · show (matchAtoms [RAtom.opt '/', RAtom.lit '>']
      ((u ++ ('/' :: ('>' :: []))).drop u.length)).map (· + u.length) =
      some (u.length + 2)
    rw [List.drop_left]
    rw [show matchAtoms [RAtom.opt '/', RAtom.lit '>'] ('/' :: ('>' :: [])) =
      some 2 from rfl]
    rw [show Option.map (· + u.length) (some 2) = some (2 + u.length) from rfl]
    rw [Nat.add_comm]

/-- A run of case-insensitive literal atoms over its own (lowercase) text
consumes it and defers to the rest of the pattern. -/
theorem matchAtoms_mapLitCI : ∀ (t : List Char) (rest : List RAtom)
    (s : List Char), (∀ c ∈ t, lowerN c.toNat = c.toNat) →
    ∀ {m : Nat}, matchAtoms rest s = some m →
    matchAtoms ((t.map RAtom.litCI) ++ rest) (t ++ s) = some (m + t.length) := by
  intro t
  induction t with
  | nil =>
    intro rest s _ m hm
    simpa using hm
  | cons c t' ih =>
    intro rest s h m hm
    have hc : lowerN c.toNat = c.toNat := h c (List.mem_cons_self _ _)
    show matchAtoms (RAtom.litCI c :: ((t'.map RAtom.litCI) ++ rest))
      (c :: (t' ++ s)) = _
    rw [show matchAtoms (RAtom.litCI c :: ((t'.map RAtom.litCI) ++ rest))
          (c :: (t' ++ s)) =
        (if lowerN c.toNat = c.toNat then
          (matchAtoms ((t'.map RAtom.litCI) ++ rest) (t' ++ s)).map (· + 1)
        else none) from rfl]
    rw [if_pos hc, ih rest s (fun x hx => h x (List.mem_cons_of_mem _ hx)) hm]
    show some (m + t'.length + 1) = some (m + (t'.length + 1))
    rw [Nat.add_assoc]

/-- A single class atom over a character of the class defers to the rest of
the pattern. -/
theorem matchAtoms_cls_step (cc : CClass) (rest : List RAtom) (x : Char)
    (s : List Char) (hx : cc.test x = true) {m : Nat}
    (hm : matchAtoms rest s = some m) :
    matchAtoms (RAtom.cls cc :: rest) (x :: s) = some (m + 1) := by
  rw [show matchAtoms (RAtom.cls cc :: rest) (x :: s) =
      (if cc.test x then (matchAtoms rest s).map (· + 1) else none) from rfl]
  rw [if_pos hx, hm]
  rfl

/-- A pattern headed by a case-insensitive literal fails on a character
that does not fold to it. -/
theorem matchAtoms_litCI_head_none (c : Char) (q : List RAtom) (x : Char)
    (s : List Char) (hq : q = RAtom.litCI c :: q.tail)
    (hx : lowerN x.toNat ≠ c.toNat) : matchAtoms q (x :: s) = none := by
  rw [hq]
  rw [show matchAtoms (RAtom.litCI c :: q.tail) (x :: s) =
      (if lowerN x.toNat = c.toNat then
        (matchAtoms q.tail s).map (· + 1) else none) from rfl]
  rw [if_neg hx]

set_option maxRecDepth 100000 in
/-- The canonical-tag regex matches a well-formed canonical link tag whose
href middle part (domain and path) is made of inert characters and slashes,
and it consumes the whole tag. -/
theorem matchAtoms_canonMid (mid : List Char)
    (hmid : ∀ x ∈ mid, x ∈ SAFE ∨ x = '/') :
    matchAtoms pCanon
      ((("<link rel=\"canonical\" href=\"https://").data) ++
        (mid ++ (("\" />").data))) = some (40 + mid.length) := by
  have hmidgt : '>' ∉ mid := fun h => by
    rcases hmid _ h with h1 | h1
    · exact absurd h1 (by decide)
    · exact absurd h1 (by decide)
  have hmidr : ∀ x ∈ mid, lowerN x.toNat ≠ ('r').toNat := by
    intro x hx
    rcases hmid x hx with h1 | h1
    · exact (by decide : ∀ y ∈ SAFE, lowerN y.toNat ≠ ('r').toNat) x h1
    · rw [h1]; decide
  have hu : '>' ∉ ((" href=\"https://").data) ++ (mid ++ (("\" ").data)) :=
    fun h => by
      rcases List.mem_append.mp h with h1 | h1
      · exact absurd h1 (by decide)
      · rcases List.mem_append.mp h1 with h2 | h2
        · exact hmidgt h2
        · exact absurd h2 (by decide)
  have h1' : matchAtoms [RAtom.lazyStar CClass.notGt, RAtom.opt '/', RAtom.lit '>']
      (((" href=\"https://").data) ++ (mid ++ (("\" />").data))) =
      some (19 + mid.length) := by
    rw [show (((" href=\"https://").data) : List Char) ++ (mid ++ (("\" />").data)) =
        ((((" href=\"https://").data) ++ (mid ++ (("\" ").data))) ++
          ('/' :: ('>' :: []))) from by
      rw [show (("\" />").data : List Char) = (("\" ").data) ++ ('/' :: ('>' :: []))
        from rfl]
      simp only [List.append_assoc]]
    rw [match_lazy_slash_gt _ hu]
    exact congrArg some (by
      rw [List.length_append, List.length_append,
        show (((" href=\"https://").data).length) = 15 from rfl,
        show ((("\" ").data).length) = 2 from rfl]
      omega)
  have h2' : matchAtoms (RAtom.cls CClass.quoteApos ::
      [RAtom.lazyStar CClass.notGt, RAtom.opt '/', RAtom.lit '>'])
      ('"' :: (((" href=\"https://").data) ++ (mid ++ (("\" />").data)))) =
      some (20 + mid.length) := by
    rw [matchAtoms_cls_step CClass.quoteApos _ ('"') _ (by decide) h1']
    exact congrArg some (by omega)
  have h3' : matchAtoms (((("canonical").data).map RAtom.litCI) ++
      (RAtom.cls CClass.quoteApos ::
        [RAtom.lazyStar CClass.notGt, RAtom.opt '/', RAtom.lit '>']))
      ((("canonical").data) ++ ('"' :: (((" href=\"https://").data) ++
        (mid ++ (("\" />").data))))) = some (29 + mid.length) := by
    rw [matchAtoms_mapLitCI (("canonical").data) _ _ (by decide) h2']
    exact congrArg some (by
      rw [show ((("canonical").data).length) = 9 from rfl]
      omega)
  have h4' : matchAtoms (RAtom.cls CClass.quoteApos ::
      (((("canonical").data).map RAtom.litCI) ++
        (RAtom.cls CClass.quoteApos ::
          [RAtom.lazyStar CClass.notGt, RAtom.opt '/', RAtom.lit '>'])))
      ('"' :: ((("canonical").data) ++ ('"' :: (((" href=\"https://").data) ++
        (mid ++ (("\" />").data)))))) = some (30 + mid.length) := by
    rw [matchAtoms_cls_step CClass.quoteApos _ ('"') _ (by decide) h3']
    exact congrArg some (by omega)
  have h5' : matchAtoms (((("rel=").data).map RAtom.litCI) ++
      (RAtom.cls CClass.quoteApos ::
        (((("canonical").data).map RAtom.litCI) ++
          (RAtom.cls CClass.quoteApos ::
            [RAtom.lazyStar CClass.notGt, RAtom.opt '/', RAtom.lit '>']))))
      ((("rel=").data) ++ ('"' :: ((("canonical").data) ++ ('"' ::
        (((" href=\"https://").data) ++ (mid ++ (("\" />").data))))))) =
      some (34 + mid.length) := by
    rw [matchAtoms_mapLitCI (("rel=").data) _ _ (by decide) h4']
    exact congrArg some (by
      rw [show ((("rel=").data).length) = 4 from rfl]
      omega)
  have hhit : matchAtoms (((("rel=").data).map RAtom.litCI) ++
      (RAtom.cls CClass.quoteApos ::
        (((("canonical").data).map RAtom.litCI) ++
          (RAtom.cls CClass.quoteApos ::
            [RAtom.lazyStar CClass.notGt, RAtom.opt '/', RAtom.lit '>']))))
      ((((" rel=\"canonical\" href=\"https://").data) ++
        (mid ++ (("\" />").data))).drop 1) = some (34 + mid.length) := by
    rw [show ((((" rel=\"canonical\" href=\"https://").data) ++
        (mid ++ (("\" />").data))).drop 1) =
      ((("rel=").data) ++ ('"' :: ((("canonical").data) ++ ('"' ::
        (((" href=\"https://").data) ++ (mid ++ (("\" />").data))))))) from rfl]
    exact h5'
  have hfail : ∀ j, 1 < j → j ≤ 34 + mid.length →
      matchAtoms (((("rel=").data).map RAtom.litCI) ++
        (RAtom.cls CClass.quoteApos ::
          (((("canonical").data).map RAtom.litCI) ++
            (RAtom.cls CClass.quoteApos ::
              [RAtom.lazyStar CClass.notGt, RAtom.opt '/', RAtom.lit '>']))))
        ((((" rel=\"canonical\" href=\"https://").data) ++
          (mid ++ (("\" />").data))).drop j) = none := by
    intro j hj1 hj2
    by_cases hle : j ≤ 30
    · interval_cases j <;> rfl
    · have hdropj : ((((" rel=\"canonical\" href=\"https://").data) ++
          (mid ++ (("\" />").data))).drop j) =
          ((mid ++ (("\" />").data)).drop (j - 31)) := by
        conv_lhs => rw [show j =
          (((" rel=\"canonical\" href=\"https://").data).length) + (j - 31) from by
            rw [show ((((" rel=\"canonical\" href=\"https://").data)).length) = 31
              from rfl]
            omega]
        exact List.drop_append _
      rw [hdropj]
      by_cases hjm : j - 31 < mid.length
      · rw [List.drop_append_of_le_length (le_of_lt hjm)]
        obtain ⟨x, t, hxt⟩ := List.exists_cons_of_ne_nil
          (show mid.drop (j - 31) ≠ [] from by
            intro h
            have h2 := congrArg List.length h
            rw [List.length_drop] at h2
            simp at h2
            omega)
        rw [hxt, List.cons_append]
        have hxmem : x ∈ mid := List.mem_of_mem_drop
          (show x ∈ mid.drop (j - 31) from by
            rw [hxt]; exact List.mem_cons_self x t)
        exact matchAtoms_litCI_head_none 'r' _ x _ rfl (hmidr x hxmem)
      · have hd2 : ((mid ++ (("\" />").data)).drop (j - 31)) =
            ((("\" />").data).drop (j - 31 - mid.length)) := by
          conv_lhs => rw [show j - 31 = mid.length + (j - 31 - mid.length) from by
            omega]
          exact List.drop_append _
        rw [hd2]
        have hz : j - 31 - mid.length = 0 ∨ j - 31 - mid.length = 1 ∨
            j - 31 - mid.length = 2 ∨ j - 31 - mid.length = 3 := by omega
        rcases hz with h | h | h | h <;> rw [h] <;> rfl
  have hstar : matchAtoms (RAtom.star CClass.notGt ::
      (((("rel=").data).map RAtom.litCI) ++
        (RAtom.cls CClass.quoteApos ::
          (((("canonical").data).map RAtom.litCI) ++
            (RAtom.cls CClass.quoteApos ::
              [RAtom.lazyStar CClass.notGt, RAtom.opt '/', RAtom.lit '>'])))))
      (((" rel=\"canonical\" href=\"https://").data) ++
        (mid ++ (("\" />").data))) = some (35 + mid.length) := by
    rw [show matchAtoms (RAtom.star CClass.notGt ::
        (((("rel=").data).map RAtom.litCI) ++
          (RAtom.cls CClass.quoteApos ::
            (((("canonical").data).map RAtom.litCI) ++
              (RAtom.cls CClass.quoteApos ::
                [RAtom.lazyStar CClass.notGt, RAtom.opt '/', RAtom.lit '>'])))))
        (((" rel=\"canonical\" href=\"https://").data) ++
          (mid ++ (("\" />").data))) =
      (countdown (takeCount CClass.notGt
        (((" rel=\"canonical\" href=\"https://").data) ++
          (mid ++ (("\" />").data))))).findSome?
        (fun k => (matchAtoms (((("rel=").data).map RAtom.litCI) ++
          (RAtom.cls CClass.quoteApos ::
            (((("canonical").data).map RAtom.litCI) ++
              (RAtom.cls CClass.quoteApos ::
                [RAtom.lazyStar CClass.notGt, RAtom.opt '/', RAtom.lit '>']))))
          ((((" rel=\"canonical\" href=\"https://").data) ++
            (mid ++ (("\" />").data))).drop k)).map (· + k)) from rfl]
    have hrun : takeCount CClass.notGt
        (((" rel=\"canonical\" href=\"https://").data) ++
          (mid ++ (("\" />").data))) = 34 + mid.length := by
      rw [takeCount_all_append CClass.notGt
        ((" rel=\"canonical\" href=\"https://").data) _ (by decide)]
      rw [takeCount_all_append CClass.notGt mid _ (fun x hx => decide_eq_true
        (show x ≠ '>' from fun h => hmidgt (h ▸ hx)))]
      rw [show takeCount CClass.notGt (("\" />").data) = 3 from rfl,
        show (((" rel=\"canonical\" href=\"https://").data).length) = 31 from rfl]
      omega
    rw [hrun]
    have hnone' : ∀ j, 1 < j → j ≤ 34 + mid.length →
        (fun k => (matchAtoms (((("rel=").data).map RAtom.litCI) ++
          (RAtom.cls CClass.quoteApos ::
            (((("canonical").data).map RAtom.litCI) ++
              (RAtom.cls CClass.quoteApos ::
                [RAtom.lazyStar CClass.notGt, RAtom.opt '/', RAtom.lit '>']))))
          ((((" rel=\"canonical\" href=\"https://").data) ++
            (mid ++ (("\" />").data))).drop k)).map (· + k)) j = none := by
      intro j hj1 hj2
      show (matchAtoms (((("rel=").data).map RAtom.litCI) ++
        (RAtom.cls CClass.quoteApos ::
          (((("canonical").data).map RAtom.litCI) ++
            (RAtom.cls CClass.quoteApos ::
              [RAtom.lazyStar CClass.notGt, RAtom.opt '/', RAtom.lit '>']))))
        ((((" rel=\"canonical\" href=\"https://").data) ++
          (mid ++ (("\" />").data))).drop j)).map (· + j) = none
      rw [hfail j hj1 hj2]
      rfl
    rw [countdown_select (34 + mid.length) 1 _ (by omega) hnone']
    rw [show countdown 1 = [1, 0] from rfl]
    apply findSome?_pair _ 1 0 (35 + mid.length)
    show (matchAtoms (((("rel=").data).map RAtom.litCI) ++
      (RAtom.cls CClass.quoteApos ::
        (((("canonical").data).map RAtom.litCI) ++
          (RAtom.cls CClass.quoteApos ::
            [RAtom.lazyStar CClass.notGt, RAtom.opt '/', RAtom.lit '>']))))
      ((((" rel=\"canonical\" href=\"https://").data) ++
        (mid ++ (("\" />").data))).drop 1)).map (· + 1) = some (35 + mid.length)
    rw [hhit]
    show some (34 + mid.length + 1) = some (35 + mid.length)
    exact congrArg some (by omega)
  rw [show pCanon = ((("<link").data).map RAtom.litCI) ++
      (RAtom.star CClass.notGt ::
        (((("rel=").data).map RAtom.litCI) ++
          (RAtom.cls CClass.quoteApos ::
            (((("canonical").data).map RAtom.litCI) ++
              (RAtom.cls CClass.quoteApos ::
                [RAtom.lazyStar CClass.notGt, RAtom.opt '/', RAtom.lit '>'])))))
    from by decide]
  rw [show ((("<link rel=\"canonical\" href=\"https://").data) : List Char) ++
      (mid ++ (("\" />").data)) =
    (("<link").data) ++ (((" rel=\"canonical\" href=\"https://").data) ++
      (mid ++ (("\" />").data))) from by
    rw [show ((("<link rel=\"canonical\" href=\"https://").data) : List Char) =
      (("<link").data) ++ ((" rel=\"canonical\" href=\"https://").data) from rfl]
    simp only [List.append_assoc]]
  rw [matchAtoms_mapLitCI (("<link").data) _ _ (by decide) hstar]
  exact congrArg some (by
    rw [show ((("<link").data).length) = 5 from rfl]
    omega)

/-- Mismatch within the common prefix: some position of the common length
of q and v carries different characters there. -/
def misWithin : List Char → List Char → Bool
  | [], _ => false
  | _, [] => false
  | a :: q, b :: v => a ≠ b || misWithin q v

/-- A mismatch within v stays a mismatch after extending v. -/
theorem misWithin_append : ∀ (q u : List Char), misWithin q u = true →
    ∀ (s : List Char), misWithin q (u ++ s) = true := by
  intro q
  induction q with
  | nil => intro u h s; exact absurd h (by simp [misWithin])
  | cons a q' ih =>
    intro u h s
    cases u with
    | nil => exact absurd h (by simp [misWithin])
    | cons b u' =>
      rw [List.cons_append]
      rw [show misWithin (a :: q') (b :: (u' ++ s)) =
          (decide (a ≠ b) || misWithin q' (u' ++ s)) from rfl]
      rw [show misWithin (a :: q') (b :: u') =
          (decide (a ≠ b) || misWithin q' u') from rfl] at h
      rcases Bool.or_eq_true_iff.mp h with h1 | h1
      · rw [h1, Bool.true_or]
      · rw [ih u' h1 s, Bool.or_true]

/-- A pattern with a mismatch inside the common prefix does not start
here. -/
theorem misWithin_startsL : ∀ (q v : List Char), misWithin q v = true →
    startsL q v = false := by
  intro q
  induction q with
  | nil => intro v h; exact absurd h (by simp [misWithin])
  | cons a q' ih =>
    intro v h
    cases v with
    | nil => rfl
    | cons b v' =>
      rw [show misWithin (a :: q') (b :: v') =
          (decide (a ≠ b) || misWithin q' v') from rfl] at h
      rw [show startsL (a :: q') (b :: v') =
          (decide (a = b) && startsL q' v') from rfl]
      rcases Bool.or_eq_true_iff.mp h with h1 | h1
      · rw [decide_eq_false (of_decide_eq_true h1), Bool.false_and]
      · rw [ih v' h1, Bool.and_false]

/-- Every suffix position of u mismatches the pattern q within u itself, so
scanning for q can skip the whole block u regardless of what follows. -/
def blockFree (q : List Char) : List Char → Bool
  | [] => true
  | u@(_ :: u') => misWithin q u && blockFree q u'

/-- A block that q cannot start inside is transparent to the substring
scan. -/
theorem contains_block_skip (q : List Char) : ∀ (u : List Char),
    blockFree q u = true → ∀ (s : List Char),
    containsSubstr q (u ++ s) = containsSubstr q s := by
  intro u
  induction u with
  | nil => intro _ s; rfl
  | cons x u' ih =>
    intro h s
    rw [show blockFree q (x :: u') =
        (misWithin q (x :: u') && blockFree q u') from rfl] at h
    obtain ⟨h1, h2⟩ := Bool.and_eq_true_iff.mp h
    rw [List.cons_append, contains_cons]
    have hs : startsL q ((x :: u') ++ s) = false :=
      misWithin_startsL _ _ (misWithin_append _ _ h1 s)
    rw [List.cons_append] at hs
    rw [hs, Bool.false_or]
    exact ih h2 s

/-- The substring scan skips a block missing the pattern head. -/
theorem contains_skip_chars (q : List Char) (u : List Char) (c : Char)
    (hq : q = c :: q.tail) (hc : c ∉ u) (s : List Char) :
    containsSubstr q (u ++ s) = containsSubstr q s := by
  rw [hq]
  exact contains_append_skip u s hc

/-- The substring scan steps over one character differing from the pattern
head. -/
theorem contains_skip_cons (q : List Char) (c x : Char)
    (hq : q = c :: q.tail) (hx : c ≠ x) (s : List Char) :
    containsSubstr q (x :: s) = containsSubstr q s := by
  conv_lhs => rw [hq]
  rw [contains_cons]
  rw [show startsL (c :: q.tail) (x :: s) =
      (decide (c = x) && startsL q.tail s) from rfl]
  rw [decide_eq_false hx, Bool.false_and, Bool.false_or, ← hq]

/-- The canonical-tag regex consumes a whole well-formed canonical link
tag whose domain and path are drawn from the inert alphabet. -/
theorem matchAtoms_canonTagFull (d p : List Char)
    (hd : ∀ x ∈ d, x ∈ SAFE) (hp : ∀ x ∈ p, x ∈ SAFE) :
    matchAtoms pCanon (canonicalTag d ('/' :: p)) =
      some (41 + d.length + p.length) := by
  have hmid : ∀ x ∈ d ++ ('/' :: p), x ∈ SAFE ∨ x = '/' := by
    intro x hx
    rcases List.mem_append.mp hx with h1 | h1
    · exact Or.inl (hd x h1)
    · rcases List.mem_cons.mp h1 with h2 | h2
      · exact Or.inr h2
      · exact Or.inl (hp x h2)
  have h := matchAtoms_canonMid (d ++ ('/' :: p)) hmid
  rw [show canonicalTag d ('/' :: p) =
      (("<link rel=\"canonical\" href=\"https://").data) ++
        ((d ++ ('/' :: p)) ++ (("\" />").data)) from by
    unfold canonicalTag
    simp only [List.append_assoc]]
  rw [h]
  exact congrArg some (by
    rw [List.length_append, List.length_cons]
    omega)

/-- Lines 6-7 applied to a path free of slashes: the slash is prepended. -/
theorem normPath_cons (p : List Char) (h : '/' ∉ p) :
    normPath p = '/' :: p := by
  unfold normPath
  cases p with
  | nil => rfl
  | cons x p' =>
    have hx : '/' ≠ x := fun he => h (by rw [he]; exact List.mem_cons_self x p')
    have hs : startsL (("/").data) (x :: p') = false := by
      rw [show startsL (("/").data) (x :: p') =
          (decide ('/' = x) && startsL ([] : List Char) p') from rfl]
      rw [decide_eq_false hx, Bool.false_and]
    rw [if_neg (by rw [hs]; exact Bool.false_ne_true)]

theorem blocked_slash_cons (a : RAtom) {p : List Char}
    (h1 : blocked a (['/'])) (h2 : blocked a p) : blocked a ('/' :: p) :=
  blocked_append h1 h2

theorem not_mem_cons2 {c x : Char} {l : List Char} (h1 : c ≠ x)
    (h2 : c ∉ l) : c ∉ x :: l :=
  fun h => (List.mem_cons.mp h).elim h1 h2

set_option maxRecDepth 400000 in
/-- C2 counterexample: markup with an opening head tag wrapped in an inline
React bootstrap script.  The canonical tag is inserted after the head tag,
but rule 6 then deletes the whole script including the head tag and the
freshly inserted canonical tag, so the output contains no canonical tag at
all instead of exactly one. -/
theorem c2_counterexample :
    searchExists pHead
        (("<script>window.__REACT<head></script>").data) = true ∧
    countMatches pCanon
        (fix_content (("<script>window.__REACT<head></script>").data)
          (("/a").data) (("zz").data)) = 0 := by
  exact ⟨by decide, by decide⟩


set_option maxRecDepth 400000 in
/-- C2 amended: for markup made of a context drawn from the inert alphabet
followed by an opening head tag, and a domain and path both drawn from the
inert alphabet, the rewriter inserts the canonical tag exactly once,
immediately after the head tag, and the output contains exactly one
canonical tag.  Both restrictions are load-bearing: markup can let rule 6
swallow the head region together with the inserted tag (see the
counterexample), and a domain or path carrying quotes or angle brackets
can complete further canonical-tag matches inside the inserted href. -/
theorem c2_canonical_amended (pre d p : List Char)
    (hpre : ∀ x ∈ pre, x ∈ SAFE) (hd : ∀ x ∈ d, x ∈ SAFE)
    (hp : ∀ x ∈ p, x ∈ SAFE) :
    fix_content (pre ++ (("<head>").data)) p d =
      pre ++ ((("<head>\n").data) ++ canonicalTag d (normPath p)) ∧
    countMatches pCanon
      (pre ++ ((("<head>\n").data) ++ canonicalTag d (normPath p))) = 1 := by
  have hslash : '/' ∉ p := not_mem_of_safe hp (by decide)
  rw [normPath_cons p hslash]
  have hctx : ∀ (a : RAtom), blocked a SAFE →
      blocked a ((("<head>").data)) →
      blocked a (pre ++ (("<head>").data)) :=
    fun a hs ht => blocked_append (blocked_of_safe a hpre hs) ht
  have bw : blocked (RAtom.lit 'w') (pre ++ (("<head>").data)) :=
    hctx _ (by decide) (by decide)
  have bq : blocked (RAtom.lit 'q') (pre ++ (("<head>").data)) :=
    hctx _ (by decide) (by decide)
  have bg : blocked (RAtom.lit 'g') (pre ++ (("<head>").data)) :=
    hctx _ (by decide) (by decide)
  have bmci : blocked (RAtom.litCI 'm') (pre ++ (("<head>").data)) :=
    hctx _ (by decide) (by decide)
  have bgci : blocked (RAtom.litCI 'g') (pre ++ (("<head>").data)) :=
    hctx _ (by decide) (by decide)
  have bkci : blocked (RAtom.litCI 'k') (pre ++ (("<head>").data)) :=
    hctx _ (by decide) (by decide)
  have hctag : ∀ (a : RAtom), blocked a SAFE →
      blocked a ((("<link rel=\"canonical\" href=\"https://").data)) →
      blocked a ((("\" />").data)) → blocked a (['/']) →
      blocked a (canonicalTag d ('/' :: p)) := by
    intro a hs h1 h2 h3
    unfold canonicalTag
    exact blocked_append (blocked_append (blocked_append h1
      (blocked_of_safe a hd hs))
      (blocked_slash_cons a h3 (blocked_of_safe a hp hs))) h2
  have hout : ∀ (a : RAtom), blocked a SAFE →
      blocked a ((("<head>\n").data)) →
      blocked a ((("<link rel=\"canonical\" href=\"https://").data)) →
      blocked a ((("\" />").data)) → blocked a (['/']) →
      blocked a (pre ++ ((("<head>\n").data) ++ canonicalTag d ('/' :: p))) :=
    fun a hs h0 h1 h2 h3 =>
      blocked_append (blocked_of_safe a hpre hs)
        (blocked_append h0 (hctag a hs h1 h2 h3))
  have bj2 : blocked (RAtom.lit 'j')
      (pre ++ ((("<head>\n").data) ++ canonicalTag d ('/' :: p))) :=
    hout _ (by decide) (by decide) (by decide) (by decide) (by decide)
  have bu2 : blocked (RAtom.lit 'u')
      (pre ++ ((("<head>\n").data) ++ canonicalTag d ('/' :: p))) :=
    hout _ (by decide) (by decide) (by decide) (by decide) (by decide)
  have bw2 : blocked (RAtom.lit 'w')
      (pre ++ ((("<head>\n").data) ++ canonicalTag d ('/' :: p))) :=
    hout _ (by decide) (by decide) (by decide) (by decide) (by decide)
  have hmemtag : ∀ (c : Char), c ∉ SAFE → c ∉ (("<head>\n").data) →
      c ∉ (("<link rel=\"canonical\" href=\"https://").data) →
      c ∉ (("\" />").data) → c ≠ '/' →
      c ∉ pre ++ ((("<head>\n").data) ++ canonicalTag d ('/' :: p)) := by
    intro c hs h0 h1 h2 h3
    refine not_mem_append (not_mem_of_safe hpre hs) (not_mem_append h0 ?_)
    unfold canonicalTag
    exact not_mem_append (not_mem_append (not_mem_append h1
      (not_mem_of_safe hd hs)) (not_mem_cons2 h3 (not_mem_of_safe hp hs))) h2
  have hdash : '-' ∉ pre ++ ((("<head>\n").data) ++ canonicalTag d ('/' :: p)) :=
    hmemtag '-' (by decide) (by decide) (by decide) (by decide) (by decide)
  have hv : 'v' ∉ pre ++ ((("<head>\n").data) ++ canonicalTag d ('/' :: p)) :=
    hmemtag 'v' (by decide) (by decide) (by decide) (by decide) (by decide)
  have e1 : stripWayback (pre ++ (("<head>").data)) =
      pre ++ (("<head>").data) := by
    unfold stripWayback
    rw [subAll_id_of_blocked (RAtom.lit 'w')
        (by decide : RAtom.lit 'w' ∈ pArchiveId) _ bw,
      subAll_id_of_blocked (RAtom.lit 'w')
        (by decide : RAtom.lit 'w' ∈ pArchive) _ bw]
  have e2 : rewriteHosts (pre ++ (("<head>").data)) =
      pre ++ (("<head>").data) := by
    unfold rewriteHosts
    rw [subAll_id_of_blocked (RAtom.lit 'q')
        (by decide : RAtom.lit 'q' ∈ pQuibeySlash) _ bq,
      subAll_id_of_blocked (RAtom.lit 'q')
        (by decide : RAtom.lit 'q' ∈ pQuibeyQuote) _ bq,
      subAll_id_of_blocked (RAtom.lit 'g')
        (by decide : RAtom.lit 'g' ∈ pHeroSlash) _ bg,
      subAll_id_of_blocked (RAtom.lit 'g')
        (by decide : RAtom.lit 'g' ∈ pHeroQuote) _ bg,
      subAll_id_of_blocked (RAtom.lit 'g')
        (by decide : RAtom.lit 'g' ∈ pSSHeroSlash) _ bg,
      subAll_id_of_blocked (RAtom.lit 'g')
        (by decide : RAtom.lit 'g' ∈ pSSHeroQuote) _ bg,
      subAll_id_of_blocked (RAtom.lit 'q')
        (by decide : RAtom.lit 'q' ∈ pSSQuibeySlash) _ bq,
      subAll_id_of_blocked (RAtom.lit 'q')
        (by decide : RAtom.lit 'q' ∈ pSSQuibeyQuote) _ bq]
  have e3 : fixCdn (pre ++ (("<head>").data)) =
      pre ++ (("<head>").data) := by
    unfold fixCdn
    rw [subAll_id_of_blocked (RAtom.litCI 'm')
        (by decide : RAtom.litCI 'm' ∈ pCdn2) _ bmci,
      subAll_id_of_blocked (RAtom.litCI 'g')
        (by decide : RAtom.litCI 'g' ∈ pCdnHero) _ bgci,
      subAll_id_of_blocked (RAtom.litCI 'm')
        (by decide : RAtom.litCI 'm' ∈ pSSCdn2) _ bmci,
      subAll_id_of_blocked (RAtom.litCI 'g')
        (by decide : RAtom.litCI 'g' ∈ pSSCdnHero) _ bgci]
  have e4 : canonStage ('/' :: p) d (pre ++ (("<head>").data)) =
      pre ++ ((("<head>\n").data) ++ canonicalTag d ('/' :: p)) := by
    unfold canonStage
    have hrem : subAll pCanon [] (pre ++ (("<head>").data)) =
        pre ++ (("<head>").data) :=
      subAll_id_of_blocked (RAtom.litCI 'k')
        (by decide : RAtom.litCI 'k' ∈ pCanon) _ bkci
    have hsearch : searchExists pHead (pre ++ (("<head>").data)) = true := by
      rw [searchExists_skip2
          (show pHead = RAtom.lit '<' :: pHead.tail by decide) pre _
          (blocksHead_of_safe (by decide) hpre)]
      decide
    rw [hrem, if_pos hsearch]
    rw [subFirst_skip2 (show pHead = RAtom.lit '<' :: pHead.tail by decide)
        pre _ (blocksHead_of_safe (by decide) hpre)]
    rw [subFirst_match_ne (show matchAtoms pHead (("<head>").data) = some 6
        from by decide) (by decide)]
    rw [show ((("<head>").data).take 6) = (("<head>").data) from rfl,
      show ((("<head>").data).drop 6) = ([] : List Char) from rfl,
      List.append_nil]
    rfl
  have e5 : stripBundles
      (pre ++ ((("<head>\n").data) ++ canonicalTag d ('/' :: p))) =
      pre ++ ((("<head>\n").data) ++ canonicalTag d ('/' :: p)) := by
    unfold stripBundles
    rw [subAll_id_of_blocked (RAtom.lit 'j')
        (by decide : RAtom.lit 'j' ∈ pMain) _ bj2,
      subAll_id_of_blocked (RAtom.lit 'u')
        (by decide : RAtom.lit 'u' ∈ pChunk) _ bu2]
  have e6 : stripReactBoot
      (pre ++ ((("<head>\n").data) ++ canonicalTag d ('/' :: p))) =
      pre ++ ((("<head>\n").data) ++ canonicalTag d ('/' :: p)) := by
    unfold stripReactBoot
    rw [subAll_id_of_blocked (RAtom.lit 'w')
        (by decide : RAtom.lit 'w' ∈ pReact) _ bw2]
  have e7 : fixPointer
      (pre ++ ((("<head>\n").data) ++ canonicalTag d ('/' :: p))) =
      pre ++ ((("<head>\n").data) ++ canonicalTag d ('/' :: p)) := by
    unfold fixPointer
    rw [replAll_id_of_mem
        (show '-' ∈ (("pointer-events: none").data) by decide) _ hdash,
      replAll_id_of_mem
        (show '-' ∈ (("pointer-events:none").data) by decide) _ hdash]
  have hch : containsSubstr (("</head>").data)
      (pre ++ ((("<head>\n").data) ++ canonicalTag d ('/' :: p))) = false := by
    unfold canonicalTag
    rw [contains_skip_chars (("</head>").data) pre '<' rfl
      (not_mem_of_safe hpre (by decide))]
    rw [contains_block_skip (("</head>").data) (("<head>\n").data) (by decide)]
    rw [List.append_assoc, List.append_assoc,
      show (('/' :: p) ++ (("\" />").data)) = '/' :: (p ++ (("\" />").data))
        from rfl]
    rw [contains_block_skip (("</head>").data)
      (("<link rel=\"canonical\" href=\"https://").data) (by decide)]
    rw [contains_skip_chars (("</head>").data) d '<' rfl
      (not_mem_of_safe hd (by decide))]
    rw [contains_skip_cons (("</head>").data) '<' '/' rfl (by decide)]
    rw [contains_skip_chars (("</head>").data) p '<' rfl
      (not_mem_of_safe hp (by decide))]
    decide
  have e8 : injectCss
      (pre ++ ((("<head>\n").data) ++ canonicalTag d ('/' :: p))) =
      pre ++ ((("<head>\n").data) ++ canonicalTag d ('/' :: p)) := by
    unfold injectCss
    rw [if_neg (by rw [hch]; exact Bool.false_ne_true)]
  have e9 : spaFallback
      (pre ++ ((("<head>\n").data) ++ canonicalTag d ('/' :: p))) =
      pre ++ ((("<head>\n").data) ++ canonicalTag d ('/' :: p)) := by
    unfold spaFallback
    rw [contains_false_of_mem (show 'v' ∈ marker1 by decide) hv,
      contains_false_of_mem (show 'v' ∈ marker2 by decide) hv]
    simp
  have hlen : (canonicalTag d ('/' :: p)).length = 41 + d.length + p.length := by
    unfold canonicalTag
    rw [List.length_append, List.length_append, List.length_append,
      show (('/' :: p).length) = p.length + 1 from rfl,
      show ((("<link rel=\"canonical\" href=\"https://").data).length) = 36
        from rfl,
      show ((("\" />").data).length) = 4 from rfl]
    omega
  constructor
  · unfold fix_content preFallback
    rw [normPath_cons p hslash, e1, e2, e3, e4, e5, e6, e7, e8, e9]
  · rw [countMatches_skip2
        (show pCanon = RAtom.litCI '<' :: pCanon.tail by decide) pre _
        (blocksHead_of_safe (by decide) hpre)]
    rw [show ((("<head>\n").data) : List Char) ++ canonicalTag d ('/' :: p) =
        '<' :: ((("head>\n").data) ++ canonicalTag d ('/' :: p)) from rfl]
    rw [countMatches_cons_none (show matchAtoms pCanon
        ('<' :: ((("head>\n").data) ++ canonicalTag d ('/' :: p))) = none
      from rfl)]
    rw [countMatches_skip2
        (show pCanon = RAtom.litCI '<' :: pCanon.tail by decide)
        (("head>\n").data) _ (by decide)]
    have hne : canonicalTag d ('/' :: p) ≠ [] := by
      intro h
      have h2 := congrArg List.length h
      rw [hlen] at h2
      simp only [List.length_nil] at h2
      omega
    rw [countMatches_match_ne (matchAtoms_canonTagFull d p hd hp)
      (by omega) hne]
    rw [show (canonicalTag d ('/' :: p)).drop (41 + d.length + p.length) =
        ([] : List Char) from by
      rw [← hlen]
      exact List.drop_length _]
    rw [countMatches_nil]

/-- C2 witness: the amended canonical property at a concrete context,
domain and path. -/
theorem c2_witness :
    fix_content ((("xy").data) ++ (("<head>").data)) (("x").data)
        (("zz").data) =
      (("xy").data) ++ ((("<head>\n").data) ++
        canonicalTag (("zz").data) (normPath (("x").data))) ∧
    countMatches pCanon ((("xy").data) ++ ((("<head>\n").data) ++
      canonicalTag (("zz").data) (normPath (("x").data)))) = 1 :=
  c2_canonical_amended (("xy").data) (("zz").data) (("x").data)
    (by decide) (by decide) (by decide)
